import Mathlib

/-!
Verification development for the AU_ROS_UAV danger-grid engine.

Shallow embedding of the core risk-field code:
  * `map_fixed.h` : the 2-D grid of danger cells (`map`);
  * `danger_grid.h` (first revision, the one with global `look_ahead = 20`,
    `look_behind = 2`, `field_weight = 0.7`) : the time-indexed danger space,
    the trajectory projector (`calculate_future_pos`, `dangerRecurse`,
    `neighoboringAngles`, `placeDanger`), the neighbor spreader
    (`set_danger_field`), the fill loop (`fill_danger_space`) and the
    distance-cost blender (`calculate_distance_costs`);
  * `map_tools.h` : `find_width_in_squares` / `find_height_in_squares`.

Modelling conventions:
  * C++ `double` values are modelled by `ℚ` (exact arithmetic).  The only
    places where a `double` result is not rational are the `asin`-based
    bearing computation and the `sqrt`-based distance values; those are
    abstracted as explicit function parameters (`ang`, `distf`) together
    with a predicate (`AngleSpec`) recording precisely the sign/quadrant
    facts the source's formula guarantees.
  * The recursion of `dangerRecurse` is embedded with explicit fuel; `none`
    means the recursion depth exceeded the fuel.
  * `map.h` is not present in the repository snapshot (only `map_fixed.h`
    is); the two accessors the danger grid needs that `map_fixed.h` lacks
    (`add_danger_at`, `safely_add_danger_at`) are modelled from the spec.
-/

/-- List update at an index: `modN l i f` applies `f` to element `i` of `l`
and leaves everything else (including the length) unchanged; out-of-range
indices are a no-op.  This models `v[i] = ...` on a C++ `std::vector`. -/
def modN {α : Type} : List α → ℕ → (α → α) → List α
  | [], _, _ => []
  | a :: l, 0, f => f a :: l
  | a :: l, n + 1, f => a :: modN l n f

/-- The transient `estimate` struct from `estimate.h` (header missing from
the snapshot; the struct is fully determined by its uses in
`danger_grid.h` and by the spec): an `(x, y, danger)` triple, with
`(0, 0, -1)` used as the "advance one second" sentinel. -/
structure estimate where
  x : ℤ
  y : ℤ
  danger : ℚ
  deriving DecidableEq

instance : Inhabited estimate := ⟨⟨0, 0, 0⟩⟩

/-- The aircraft snapshot consumed by the danger grid (from `Plane_fixed.h`,
interface as used by `danger_grid.h`): identifier, current location,
intermediate destination, final destination, current bearing, and the
bearing to the destination used for the post-goal tail. -/
structure Plane where
  id : ℤ
  loc : ℤ × ℤ
  dest : ℤ × ℤ
  fdest : ℤ × ℤ
  bearing : ℚ
  bearingToDest : ℚ
  deriving DecidableEq

/-- The 2-D danger grid from `map_fixed.h`.  `the_map` is the
`vector< vector< grid_square > >` in `[x][y]` order restricted to the
`danger` component of each `grid_square` (the `planes` occupant lists play
no role in any claim).  The C++ class also stores `squares_wide` /
`squares_high` fields; by construction they always equal the vector
lengths, so the embedding exposes them as the lengths. -/
structure map where
  the_map : List (List ℚ)
  deriving DecidableEq

instance : Inhabited map := ⟨⟨[]⟩⟩

/-- `map::get_width_in_squares` (`squares_wide`, = `the_map.size()`). -/
def get_width_in_squares (m : map) : ℕ := m.the_map.length

/-- `map::get_height_in_squares` (`squares_high`, = the column length). -/
def get_height_in_squares (m : map) : ℕ := (m.the_map.getD 0 []).length

/-- `map::get_danger_at`: `the_map[x][y].danger` (unchecked read). -/
def get_danger_at (m : map) (x_pos y_pos : ℕ) : ℚ :=
  (m.the_map.getD x_pos []).getD y_pos 0

/-- `map::set_danger_at`: `the_map[x][y].danger = new_danger`. -/
def set_danger_at (m : map) (x_pos y_pos : ℕ) (danger : ℚ) : map :=
  ⟨modN m.the_map x_pos (fun col => modN col y_pos (fun _ => danger))⟩

/-- Modelled from the spec: `map.h`'s `add_danger_at` (the header is not in
the snapshot; spec 4.1: `add_risk(x, y, v)` accumulates into the cell). -/
def add_danger_at (m : map) (x_pos y_pos : ℕ) (danger : ℚ) : map :=
  ⟨modN m.the_map x_pos (fun col => modN col y_pos (fun d => d + danger))⟩

/-- Modelled from the spec: `map.h`'s `safely_add_danger_at` (the header is
not in the snapshot; spec 4.1: as `add_risk`, but silently ignores the call
when `(x, y)` is outside the grid bounds).  Coordinates are taken in `ℤ`:
the C++ caller's unsigned wrap-around of `x - 1` at `x = 0` lands outside
the bounds check exactly as the negative value does here. -/
def safely_add_danger_at (m : map) (x_pos y_pos : ℤ) (danger : ℚ) : map :=
  if 0 ≤ x_pos ∧ x_pos < (get_width_in_squares m : ℤ) ∧
     0 ≤ y_pos ∧ y_pos < (get_height_in_squares m : ℤ) then
    add_danger_at m x_pos.toNat y_pos.toNat danger
  else m

/-- A blank `w × h` grid of zero-danger squares (the state of `the_map`
right after the resize/zero loops of the `map` constructor). -/
def blankMap (w h : ℕ) : map := ⟨List.replicate w (List.replicate h 0)⟩

/-- `map::map(width_of_field, height_of_field, map_resolution)`:
`squares_wide = (width_of_field / resolution)` — the `double`-to-unsigned
conversion TRUNCATES (the source itself remarks "is it a problem that this
rounds down??"); likewise for `squares_high`.  All squares start at danger
0. -/
def map_ctor (width_of_field height_of_field map_resolution : ℚ) : map :=
  blankMap (⌊width_of_field / map_resolution⌋).toNat
    (⌊height_of_field / map_resolution⌋).toNat

/-- `map_tools::find_width_in_squares`:
`(int)( ceil( width_of_field / map_resolution ) + 0.1 )`. -/
def find_width_in_squares (width_of_field _height_of_field map_resolution : ℚ) : ℤ :=
  ⌊(⌈width_of_field / map_resolution⌉ : ℚ) + 1/10⌋

/-- `map_tools::find_height_in_squares`:
`(int)( ceil( height_of_field / map_resolution ) + 0.1 )`. -/
def find_height_in_squares (_width_of_field height_of_field map_resolution : ℚ) : ℤ :=
  ⌊(⌈height_of_field / map_resolution⌉ : ℚ) + 1/10⌋

/-- `look_ahead` (danger_grid.h): seconds to look into the future. -/
def look_ahead : ℕ := 20

/-- `look_behind` (danger_grid.h): seconds to consider in the past. -/
def look_behind : ℕ := 2

/-- `field_weight` (danger_grid.h): attenuation of the neighbor fuzz. -/
def field_weight : ℚ := 7/10

/-- `EPSILON` (map_fixed.h): the negligible-danger threshold. -/
def EPSILON : ℚ := 1/1000000

/-- `danger_grid::neighoboringAngles`: the two principal directions
bracketing `angle`.  The C++ out-parameters are initialised to 0 by the
callers and left untouched when no branch fires, hence the `(0, 0)`
fall-through. -/
def neighoboringAngles (angle : ℚ) : ℚ × ℚ :=
  if angle > 0 then
    if angle < 45 then (0, 45)
    else if angle < 90 then (45, 90)
    else if angle < 135 then (90, 135)
    else if angle ≤ 180 then (135, 180)
    else (0, 0)
  else
    if angle > -45 then (0, -45)
    else if angle > -90 then (-45, -90)
    else if angle > -135 then (-90, -135)
    else if angle ≥ -180 then (-135, -180)
    else (0, 0)

/-- The closest/other selection performed identically in
`calculate_future_pos` and `dangerRecurse`:
`if fabs(angle-neighbors[0]) >= fabs(angle-neighbors[1])` pick the second
bracket as closest, else the first. -/
def closestOther (angle : ℚ) : ℚ × ℚ :=
  let n := neighoboringAngles angle
  if |angle - n.1| ≥ |angle - n.2| then (n.2, n.1) else (n.1, n.2)

/-- The displacement-percentage computation performed identically in
`calculate_future_pos` and `dangerRecurse`.  In `ℚ`, `x / 0 = 0`, which is
only ever exercised on the `closest = 0` path where the source also avoids
the division. -/
def displacement (angle closest other : ℚ) : ℚ :=
  if |angle| > |closest| ∧ closest ≠ 0 then closest / angle
  else if closest ≠ 0 then angle / closest
  else 1 - angle / other

/-- `danger_grid::placeDanger` (first revision, with the 0.4 danger
ceiling): appends the majority estimate and the remainder estimate for the
step at `(x, y)`.  `remainingDanger` is computed from the *unclamped*
`danger`, then both are clamped at the ceiling, exactly as in the source. -/
def placeDanger (angle : ℚ) (e : List estimate) (closest other : ℚ)
    (x y : ℤ) (danger : ℚ) : List estimate :=
  let dangerCeiling : ℚ := 2/5
  let remainingDanger : ℚ := 1 - danger
  let danger := if danger ≥ dangerCeiling then dangerCeiling else danger
  let remainingDanger :=
    if remainingDanger ≥ dangerCeiling then dangerCeiling else remainingDanger
  if angle > 0 then
    if closest = 0 then
      e ++ [⟨x, y - 1, danger⟩, ⟨x + 1, y - 1, remainingDanger⟩]
    else if closest = 45 ∧ other = 0 then
      e ++ [⟨x + 1, y - 1, danger⟩, ⟨x, y - 1, remainingDanger⟩]
    else if closest = 45 then
      e ++ [⟨x + 1, y - 1, danger⟩, ⟨x + 1, y, remainingDanger⟩]
    else if closest = 90 ∧ other = 45 then
      e ++ [⟨x + 1, y, danger⟩, ⟨x + 1, y - 1, remainingDanger⟩]
    else if closest = 90 then
      e ++ [⟨x + 1, y, danger⟩, ⟨x + 1, y + 1, remainingDanger⟩]
    else if closest = 135 ∧ other = 90 then
      e ++ [⟨x + 1, y + 1, danger⟩, ⟨x + 1, y, remainingDanger⟩]
    else if closest = 135 then
      e ++ [⟨x + 1, y + 1, danger⟩, ⟨x, y + 1, remainingDanger⟩]
    else
      e ++ [⟨x, y + 1, danger⟩, ⟨x + 1, y + 1, remainingDanger⟩]
  else
    if closest = 0 then
      e ++ [⟨x, y - 1, danger⟩, ⟨x - 1, y - 1, remainingDanger⟩]
    else if closest = -45 ∧ other = 0 then
      e ++ [⟨x - 1, y - 1, danger⟩, ⟨x, y - 1, remainingDanger⟩]
    else if closest = -45 then
      e ++ [⟨x - 1, y - 1, danger⟩, ⟨x - 1, y, remainingDanger⟩]
    else if closest = -90 ∧ other = -45 then
      e ++ [⟨x - 1, y, danger⟩, ⟨x - 1, y - 1, remainingDanger⟩]
    else if closest = -90 then
      e ++ [⟨x - 1, y, danger⟩, ⟨x - 1, y + 1, remainingDanger⟩]
    else if closest = -135 ∧ other = -90 then
      e ++ [⟨x - 1, y + 1, danger⟩, ⟨x - 1, y, remainingDanger⟩]
    else if closest = -135 then
      e ++ [⟨x - 1, y + 1, danger⟩, ⟨x, y + 1, remainingDanger⟩]
    else
      e ++ [⟨x, y + 1, danger⟩, ⟨x - 1, y + 1, remainingDanger⟩]

/-- The Manhattan distance used as the termination measure for the
projector's recursion. -/
def manhattan (x1 y1 x2 y2 : ℤ) : ℕ := (x2 - x1).natAbs + (y2 - y1).natAbs

/-- The facts the source's `asin`-based bearing formula
(`angle = 180 - RADtoDEGREES*asin(xDistance/distance)`, flipped to
`RADtoDEGREES*asin(...)` when `y2 < y1` and negated when `x2 - x1 < 0`)
guarantees about the produced angle, for distinct points: it lies in
`[-180, 180]`, it is strictly between 0 and 180 exactly when the
destination is strictly to the east, negative exactly when strictly to the
west, of magnitude below 90 exactly when the destination is strictly to
the north (`y2 < y1`) and of magnitude above 90 exactly when strictly to
the south. -/
def AngleSpec (x1 y1 x2 y2 : ℤ) (a : ℚ) : Prop :=
  -180 ≤ a ∧ a ≤ 180 ∧
  ((0 < a ∧ a < 180) ↔ x1 < x2) ∧
  (a < 0 ↔ x2 < x1) ∧
  (|a| < 90 ↔ y2 < y1) ∧
  (90 < |a| ↔ y1 < y2)

instance (x1 y1 x2 y2 : ℤ) (a : ℚ) : Decidable (AngleSpec x1 y1 x2 y2 a) := by
  unfold AngleSpec; infer_instance

/-- A concrete, exactly-computable bearing satisfying `AngleSpec` at every
pair of distinct points; used to instantiate the angle oracle in witnesses
and counterexamples. -/
def ratAngle (x1 y1 x2 y2 : ℤ) : ℚ :=
  let xD : ℚ := |((x2 : ℚ)) - (x1 : ℚ)|
  let yD : ℚ := |((y2 : ℚ)) - (y1 : ℚ)|
  let m : ℚ := if y2 < y1 then 90 * xD / (xD + yD) else 180 - 90 * xD / (xD + yD)
  if x2 < x1 then -m else m

/-- `danger_grid::dangerRecurse` (first revision, with the time counter),
with explicit recursion fuel: `none` means the fuel was exhausted before
the destination was reached.  The recursion state mirrors the source: the
current estimate `e`, the destination, the growing output vector
`theFuture` and the elapsed-seconds counter `time`.  The list reads
`theFuture[nextPos + 2]` / `theFuture[nextPos]` are embedded literally via
`List.getD`. -/
def dangerRecurse (ang : ℤ → ℤ → ℤ → ℤ → ℚ) :
    ℕ → estimate → ℤ × ℤ → List estimate → ℤ → Option (List estimate × ℤ)
  | 0, _, _, _, _ => none
  | fuel + 1, e, dest, theFuture, time =>
    if dest.1 = e.x ∧ dest.2 = e.y then some (theFuture, time)
    else
      let angle := ang e.x e.y dest.1 dest.2
      let closest := (closestOther angle).1
      let other := (closestOther angle).2
      let danger := displacement angle closest other
      let tf1 := placeDanger angle theFuture closest other e.x e.y danger
      let nextPos := tf1.length - 2
      let tf2 := tf1 ++ [⟨0, 0, -1⟩]
      if (tf2.getD (nextPos + 2) default).danger > 3/10 then
        dangerRecurse ang fuel (tf2.getD (nextPos + 2) default) dest tf2 (time + 1)
      else
        dangerRecurse ang fuel (tf2.getD nextPos default) dest tf2 (time + 1)

/-- The estimate `calculate_future_pos` recurses on right after the first
placement: the source line
`if(theFuture[1].danger>.3) dangerRecurse(theFuture[1], ...) else
dangerRecurse(theFuture[0], ...)`. -/
def cfp_initial_pick (theFuture : List estimate) : estimate :=
  if (theFuture.getD 1 default).danger > 3/10 then theFuture.getD 1 default
  else theFuture.getD 0 default

/-- The body of `danger_grid::calculate_future_pos` after the
current/destination selection (factored so the `time == 0` choice is made
once): the distance-zero guard, the first placement, the branch into
`dangerRecurse`, and the three-cluster post-goal tail.  `ang` abstracts
the `asin`-based bearing formula (see `AngleSpec`); the
`theFuture[theFuture.size()-3]` reads of the tail are embedded literally
via `List.getD`. -/
def cfp_core (ang : ℤ → ℤ → ℤ → ℤ → ℚ) (fuel : ℕ)
    (x1 y1 x2 y2 : ℤ) (bearingToDest : ℚ) (time : ℤ) :
    Option (List estimate × ℤ) :=
  if x2 = x1 ∧ y2 = y1 then some ([], time)
  else
    let angle := ang x1 y1 x2 y2
    let closest := (closestOther angle).1
    let other := (closestOther angle).2
    let danger := displacement angle closest other
    let tf1 := placeDanger angle [] closest other x1 y1 danger
    let tf2 := tf1 ++ [⟨0, 0, -1⟩]
    let time1 := time + 1
    match dangerRecurse ang fuel (cfp_initial_pick tf2) (x2, y2) tf2 time1 with
    | none => none
    | some (tf3, time2) =>
      let angle2 := bearingToDest
      let closest2 := (closestOther angle2).1
      let other2 := (closestOther angle2).2
      let tf4 := placeDanger angle2 tf3 closest2 other2 x2 y2 1
      let tf5 := tf4 ++ [⟨0, 0, -1⟩]
      let e5 := tf5.getD (tf5.length - 3) default
      let tf6 := placeDanger angle2 tf5 closest2 other2 e5.x e5.y 1
      let tf7 := tf6 ++ [⟨0, 0, -1⟩]
      let e7 := tf7.getD (tf7.length - 3) default
      let tf8 := placeDanger angle2 tf7 closest2 other2 e7.x e7.y 1
      some (tf8, time2)

/-- `danger_grid::calculate_future_pos` (first revision): picks the
current point and destination from the plane (location → destination when
`time == 0`, else destination → final destination) and runs the core.
The post-goal tail uses `plane.getBearingToDest()`, modelled as the
`bearingToDest` field. -/
def calculate_future_pos (ang : ℤ → ℤ → ℤ → ℤ → ℚ) (fuel : ℕ)
    (plane : Plane) (time : ℤ) : Option (List estimate × ℤ) :=
  let current := if time = 0 then plane.loc else plane.dest
  let destination := if time = 0 then plane.dest else plane.fdest
  cfp_core ang fuel current.1 current.2 destination.1 destination.2
    plane.bearingToDest time

/-- `danger_grid::set_danger_scale`: pushes the flat constant
`plane_danger` for `i = 0 .. look_behind + look_ahead + 1` (24 entries). -/
def danger_ratings (plane_danger : ℚ) : List ℚ :=
  List.replicate (look_behind + look_ahead + 2) plane_danger

/-- `danger_grid::adjust_danger`: `danger_ratings[seconds + look_behind]`. -/
def adjust_danger (plane_danger : ℚ) (seconds : ℤ) : ℚ :=
  (danger_ratings plane_danger).getD (seconds + (look_behind : ℤ)).toNat 0

/-- `danger_grid::set_danger_field` (first revision): the bearing-dependent
switch is commented out in the source ("CHANGED TO ADD FIELD ALL THE WAY
ROUND"), so `d * field_weight` is unconditionally spread to all eight
neighbors of `(x, y)` in slice `time`, in the source's order, via the safe
accessor.  The `bearing` argument is accepted and ignored, as in the
source. -/
def set_danger_field (_bearing unweighted_danger : ℚ) (x y : ℕ) (time : ℕ)
    (danger_space : List map) : List map :=
  let d := unweighted_danger * field_weight
  modN danger_space time (fun m =>
    let m1 := safely_add_danger_at m ((x : ℤ) - 1) ((y : ℤ) + 1) d
    let m2 := safely_add_danger_at m1 ((x : ℤ) - 1) (y : ℤ) d
    let m3 := safely_add_danger_at m2 ((x : ℤ) - 1) ((y : ℤ) - 1) d
    let m4 := safely_add_danger_at m3 (x : ℤ) ((y : ℤ) - 1) d
    let m5 := safely_add_danger_at m4 ((x : ℤ) + 1) ((y : ℤ) - 1) d
    let m6 := safely_add_danger_at m5 ((x : ℤ) + 1) (y : ℤ) d
    let m7 := safely_add_danger_at m6 ((x : ℤ) + 1) ((y : ℤ) + 1) d
    safely_add_danger_at m7 (x : ℤ) ((y : ℤ) + 1) d)

/-- The per-estimate walk of `danger_grid::fill_danger_space` (the loop
body is duplicated verbatim in the source for the two estimate lists; it
is factored here): maintains the running seconds counter `t`, writes
in-bounds non-sentinel estimates into slice `t + look_behind` scaled by
`adjust_danger`, follows each write with the neighbor spread, and
increments `t` in the `else` branch.  Returns the final danger space and
counter. -/
def fill_walk (bearing plane_danger : ℚ) :
    List estimate → List map → ℤ → List map × ℤ
  | [], danger_space, t => (danger_space, t)
  | current_est :: rest, danger_space, t =>
    if t ≤ (look_ahead : ℤ) then
      if 0 ≤ current_est.x ∧
         current_est.x < (get_width_in_squares (danger_space.getD 0 default) : ℤ) ∧
         0 ≤ current_est.y ∧
         current_est.y < (get_height_in_squares (danger_space.getD 0 default) : ℤ) ∧
         current_est.danger > -EPSILON then
        let time := (t + (look_behind : ℤ)).toNat
        let x := current_est.x.toNat
        let y := current_est.y.toNat
        let d := current_est.danger * adjust_danger plane_danger t
        let ds1 := modN danger_space time (fun m => add_danger_at m x y d)
        let ds2 := set_danger_field bearing d x y time ds1
        fill_walk bearing plane_danger rest ds2 t
      else
        fill_walk bearing plane_danger rest danger_space (t + 1)
    else fill_walk bearing plane_danger rest danger_space t

/-- The body of `fill_danger_space` for one non-owner plane: mark the
current cell occupied in the `t = 0` slice, obtain the two estimate lists
(`est_to_avoid` with `dummy = 0`, then `est_to_goal` continuing from the
returned counter), and walk both lists (the first with `t = 1`, the second
with `t = est_break + 1`). -/
def fill_one_plane (ang : ℤ → ℤ → ℤ → ℤ → ℚ) (fuel : ℕ) (plane_danger : ℚ)
    (p : Plane) (danger_space : List map) : Option (List map) :=
  let ds0 := modN danger_space (0 + look_behind)
    (fun m => add_danger_at m p.loc.1.toNat p.loc.2.toNat plane_danger)
  match calculate_future_pos ang fuel p 0 with
  | none => none
  | some (est_to_avoid, dummy) =>
    let est_break := dummy
    match calculate_future_pos ang fuel p dummy with
    | none => none
    | some (est_to_goal, _) =>
      let bearing := p.bearing
      let ds1 := (fill_walk bearing plane_danger est_to_avoid ds0 1).1
      let ds2 := (fill_walk bearing plane_danger est_to_goal ds1 (est_break + 1)).1
      some ds2

/-- `danger_grid::fill_danger_space` (first revision): for each plane whose
id differs from the owner's, run the per-plane fill. -/
def fill_danger_space (ang : ℤ → ℤ → ℤ → ℤ → ℚ) (fuel : ℕ) (plane_danger : ℚ)
    (plane_id : ℕ) : List Plane → List map → Option (List map)
  | [], danger_space => some danger_space
  | p :: rest, danger_space =>
    if p.id ≠ (plane_id : ℤ) then
      match fill_one_plane ang fuel plane_danger p danger_space with
      | none => none
      | some ds' => fill_danger_space ang fuel plane_danger plane_id rest ds'
    else fill_danger_space ang fuel plane_danger plane_id rest danger_space

/-- The `danger_grid` constructor (width/height/resolution form): builds
`look_ahead + look_behind + 1` copies of the blank map and fills them.
`plane_danger` is set by the source to
`sqrt(sqrs_wide^2 + sqrs_high^2) * 2.5` (irrational in general); it is
taken here as an explicit nonnegative parameter. -/
def danger_grid_construct (ang : ℤ → ℤ → ℤ → ℤ → ℚ) (fuel : ℕ)
    (set_of_aircraft : List Plane) (width height resolution : ℚ)
    (plane_danger : ℚ) (plane_id : ℕ) : Option (List map) :=
  fill_danger_space ang fuel plane_danger plane_id set_of_aircraft
    (List.replicate (look_ahead + look_behind + 1) (map_ctor width height resolution))

/-- `danger_grid::get_danger_at`:
`(*danger_space)[seconds + look_behind].get_danger_at(x_pos, y_pos)`. -/
def dg_get_danger_at (danger_space : List map) (x_pos y_pos : ℕ) (seconds : ℤ) : ℚ :=
  get_danger_at (danger_space.getD (seconds + (look_behind : ℤ)).toNat default) x_pos y_pos

/-- The distance map built at the start of `calculate_distance_costs`:
`dist_map->set_danger_at(x, y, sqrt((x-gx)^2 + (y-gy)^2))` over all cells
of a fresh map.  The `sqrt` values (irrational in general) are abstracted
as the explicit function `distf`; the fresh map's square counts equal the
danger space's (the source allocates `map(w*res, h*res, res)`, and
`floor((w*res)/res) = w` for `res > 0`). -/
def build_dist_map (distf : ℕ → ℕ → ℚ) (w h : ℕ) : map :=
  (List.range w).foldl (fun m crnt_x =>
    (List.range h).foldl (fun m2 crnt_y =>
      set_danger_at m2 crnt_x crnt_y (distf crnt_x crnt_y)) m)
    (blankMap w h)

/-- `danger_grid::calculate_distance_costs(goal_x, goal_y, danger_adjust)`
(first revision): replace the danger space by copies of the distance map,
then for `crnt_x < width`, `crnt_y < height`, `crnt_t < look_ahead`, when
the OLD slice `crnt_t` held more than `EPSILON` at the cell, overwrite the
new slice with `danger_adjust * old + dist_map` value.  Note the raw slice
indices: only indices `0 .. look_ahead - 1` are ever blended. -/
def calculate_distance_costs (distf : ℕ → ℕ → ℚ) (danger_adjust : ℚ)
    (danger_space : List map) : List map :=
  let w := get_width_in_squares (danger_space.getD 0 default)
  let h := get_height_in_squares (danger_space.getD 0 default)
  let dist_map := build_dist_map distf w h
  let ds' := List.replicate (look_ahead + look_behind + 1) dist_map
  (List.range w).foldl (fun dsa crnt_x =>
    (List.range h).foldl (fun dsb crnt_y =>
      (List.range look_ahead).foldl (fun dsc crnt_t =>
        if get_danger_at (danger_space.getD crnt_t default) crnt_x crnt_y > EPSILON then
          modN dsc crnt_t (fun m => set_danger_at m crnt_x crnt_y
            (danger_adjust * get_danger_at (danger_space.getD crnt_t default) crnt_x crnt_y
              + get_danger_at dist_map crnt_x crnt_y))
        else dsc) dsb) dsa) ds'

/-- The 8-neighborhood of `(x, y)` in the order `set_danger_field` visits
it. -/
def neighbor8 (x y : ℕ) (i j : ℕ) : Prop :=
  ((i : ℤ), (j : ℤ)) ∈
    ([((x : ℤ) - 1, (y : ℤ) + 1), ((x : ℤ) - 1, (y : ℤ)),
      ((x : ℤ) - 1, (y : ℤ) - 1), ((x : ℤ), (y : ℤ) - 1),
      ((x : ℤ) + 1, (y : ℤ) - 1), ((x : ℤ) + 1, (y : ℤ)),
      ((x : ℤ) + 1, (y : ℤ) + 1), ((x : ℤ), (y : ℤ) + 1)] : List (ℤ × ℤ))

instance (x y i j : ℕ) : Decidable (neighbor8 x y i j) :=
  inferInstanceAs (Decidable (((i : ℤ), (j : ℤ)) ∈
    ([((x : ℤ) - 1, (y : ℤ) + 1), ((x : ℤ) - 1, (y : ℤ)),
      ((x : ℤ) - 1, (y : ℤ) - 1), ((x : ℤ), (y : ℤ) - 1),
      ((x : ℤ) + 1, (y : ℤ) - 1), ((x : ℤ) + 1, (y : ℤ)),
      ((x : ℤ) + 1, (y : ℤ) + 1), ((x : ℤ), (y : ℤ) + 1)] : List (ℤ × ℤ))))

/-- A map whose columns all have the declared height (true of every map
the engine builds; needed because the safe accessor checks bounds against
the stored height). -/
def UniformMap (m : map) : Prop :=
  ∀ c ∈ m.the_map, c.length = get_height_in_squares m

instance (m : map) : Decidable (UniformMap m) := by
  unfold UniformMap; infer_instance

/-- Estimate lists in which every entry is either a genuine (nonnegative)
risk contribution or the `-1` sentinel; this is the invariant of the
projector's output stream. -/
def GoodEsts (l : List estimate) : Prop :=
  ∀ est ∈ l, 0 ≤ est.danger ∨ est.danger = -1

/-- A map all of whose cells are nonnegative. -/
def NonnegMap (m : map) : Prop := ∀ x y, 0 ≤ get_danger_at m x y

/-- A danger space all of whose cells (in every slice) are nonnegative. -/
def NonnegDS (ds : List map) : Prop :=
  ∀ i x y, 0 ≤ get_danger_at (ds.getD i default) x y

/-- Folding `safely_add_danger_at` over a list of coordinates; the chain
of eight calls in `set_danger_field` is definitionally this fold over the
eight neighbor offsets. -/
def safely_add_list (m : map) (ps : List (ℤ × ℤ)) (v : ℚ) : map :=
  ps.foldl (fun acc pq => safely_add_danger_at acc pq.1 pq.2 v) m

theorem length_modN {α : Type} (l : List α) (i : ℕ) (f : α → α) :
    (modN l i f).length = l.length := by
  induction l generalizing i with
  | nil => rfl
  | cons a t ih =>
    cases i with
    | zero => rfl
    | succ n => simpa [modN] using ih n

theorem getD_modN {α : Type} (l : List α) (i j : ℕ) (f : α → α) (d : α) :
    (modN l i f).getD j d =
      if i = j ∧ j < l.length then f (l.getD j d) else l.getD j d := by
  induction l generalizing i j with
  | nil => simp [modN]
  | cons a t ih =>
    cases i with
    | zero =>
      cases j with
      | zero => simp [modN]
      | succ k => simp [modN, List.getD_cons_succ]
    | succ n =>
      cases j with
      | zero => simp [modN]
      | succ k =>
        simp only [modN, List.getD_cons_succ, List.length_cons]
        rw [ih n k]
        by_cases h : n = k ∧ k < t.length
        · rw [if_pos h, if_pos (by omega)]
        · rw [if_neg h, if_neg (by omega)]

theorem getD_append_add {α : Type} (l l' : List α) (k : ℕ) (d : α) :
    (l ++ l').getD (l.length + k) d = l'.getD k d := by
  induction l with
  | nil => simp
  | cons a t ih =>
    have h : (a :: t).length + k = (t.length + k) + 1 := by
      simp [List.length_cons]; omega
    rw [List.cons_append, h, List.getD_cons_succ, ih]

theorem getD_triple₀ {α : Type} (l : List α) (a b c : α) (d : α) :
    (l ++ [a, b, c]).getD l.length d = a := by
  simpa using getD_append_add l [a, b, c] 0 d

theorem getD_triple₂ {α : Type} (l : List α) (a b c : α) (d : α) :
    (l ++ [a, b, c]).getD (l.length + 2) d = c := by
  simpa using getD_append_add l [a, b, c] 2 d

set_option maxHeartbeats 1600000 in
theorem placeDanger_shape (a : ℚ) (e : List estimate) (cl ot : ℚ)
    (x y : ℤ) (d : ℚ) :
    ∃ c1 c2 : estimate,
      placeDanger a e cl ot x y d = e ++ [c1, c2] ∧
      c1.danger = (if d ≥ 2/5 then 2/5 else d) ∧
      c2.danger = (if 1 - d ≥ 2/5 then 2/5 else 1 - d) := by
  unfold placeDanger
  dsimp only
  by_cases hA : a > 0
  · rw [if_pos hA]
    by_cases h1 : cl = 0
    · rw [if_pos h1]; exact ⟨_, _, rfl, rfl, rfl⟩
    rw [if_neg h1]
    by_cases h2 : cl = 45 ∧ ot = 0
    · rw [if_pos h2]; exact ⟨_, _, rfl, rfl, rfl⟩
    rw [if_neg h2]
    by_cases h3 : cl = 45
    · rw [if_pos h3]; exact ⟨_, _, rfl, rfl, rfl⟩
    rw [if_neg h3]
    by_cases h4 : cl = 90 ∧ ot = 45
    · rw [if_pos h4]; exact ⟨_, _, rfl, rfl, rfl⟩
    rw [if_neg h4]
    by_cases h5 : cl = 90
    · rw [if_pos h5]; exact ⟨_, _, rfl, rfl, rfl⟩
    rw [if_neg h5]
    by_cases h6 : cl = 135 ∧ ot = 90
    · rw [if_pos h6]; exact ⟨_, _, rfl, rfl, rfl⟩
    rw [if_neg h6]
    by_cases h7 : cl = 135
    · rw [if_pos h7]; exact ⟨_, _, rfl, rfl, rfl⟩
    rw [if_neg h7]
    exact ⟨_, _, rfl, rfl, rfl⟩
  · rw [if_neg hA]
    by_cases h1 : cl = 0
    · rw [if_pos h1]; exact ⟨_, _, rfl, rfl, rfl⟩
    rw [if_neg h1]
    by_cases h2 : cl = -45 ∧ ot = 0
    · rw [if_pos h2]; exact ⟨_, _, rfl, rfl, rfl⟩
    rw [if_neg h2]
    by_cases h3 : cl = -45
    · rw [if_pos h3]; exact ⟨_, _, rfl, rfl, rfl⟩
    rw [if_neg h3]
    by_cases h4 : cl = -90 ∧ ot = -45
    · rw [if_pos h4]; exact ⟨_, _, rfl, rfl, rfl⟩
    rw [if_neg h4]
    by_cases h5 : cl = -90
    · rw [if_pos h5]; exact ⟨_, _, rfl, rfl, rfl⟩
    rw [if_neg h5]
    by_cases h6 : cl = -135 ∧ ot = -90
    · rw [if_pos h6]; exact ⟨_, _, rfl, rfl, rfl⟩
    rw [if_neg h6]
    by_cases h7 : cl = -135
    · rw [if_pos h7]; exact ⟨_, _, rfl, rfl, rfl⟩
    rw [if_neg h7]
    exact ⟨_, _, rfl, rfl, rfl⟩

theorem closestOther_eq (a p q : ℚ) (hn : neighoboringAngles a = (p, q)) :
    closestOther a = if |a - p| ≥ |a - q| then (q, p) else (p, q) := by
  unfold closestOther
  rw [hn]

/-- Exhaustive description of the bracket selection for angles in
`[-180, 180]`: in each 22.5-degree band, which pair `(closest, other)`
the source picks. -/
theorem co_spec (a : ℚ) (hlo : -180 ≤ a) (hhi : a ≤ 180) :
    (closestOther a = (0, 45) ∧ 0 < a ∧ a < 45/2) ∨
    (closestOther a = (45, 0) ∧ 45/2 ≤ a ∧ a < 45) ∨
    (closestOther a = (45, 90) ∧ 45 ≤ a ∧ a < 135/2) ∨
    (closestOther a = (90, 45) ∧ 135/2 ≤ a ∧ a < 90) ∨
    (closestOther a = (90, 135) ∧ 90 ≤ a ∧ a < 225/2) ∨
    (closestOther a = (135, 90) ∧ 225/2 ≤ a ∧ a < 135) ∨
    (closestOther a = (135, 180) ∧ 135 ≤ a ∧ a < 315/2) ∨
    (closestOther a = (180, 135) ∧ 315/2 ≤ a ∧ a ≤ 180) ∨
    (closestOther a = (0, -45) ∧ -(45/2) < a ∧ a ≤ 0) ∨
    (closestOther a = (-45, 0) ∧ -45 < a ∧ a ≤ -(45/2)) ∨
    (closestOther a = (-45, -90) ∧ -(135/2) < a ∧ a ≤ -45) ∨
    (closestOther a = (-90, -45) ∧ -90 < a ∧ a ≤ -(135/2)) ∨
    (closestOther a = (-90, -135) ∧ -(225/2) < a ∧ a ≤ -90) ∨
    (closestOther a = (-135, -90) ∧ -135 < a ∧ a ≤ -(225/2)) ∨
    (closestOther a = (-135, -180) ∧ -(315/2) < a ∧ a ≤ -135) ∨
    (closestOther a = (-180, -135) ∧ -180 ≤ a ∧ a ≤ -(315/2)) := by
  rcases le_or_lt a 0 with hP | hP
  · -- nonpositive side
    have hA : ¬ a > 0 := by linarith
    rcases le_or_lt a (-(45/2)) with hb1 | hb1
    · rcases le_or_lt a (-45) with hb2 | hb2
      · rcases le_or_lt a (-(135/2)) with hb3 | hb3
        · rcases le_or_lt a (-90) with hb4 | hb4
          · rcases le_or_lt a (-(225/2)) with hb5 | hb5
            · rcases le_or_lt a (-135) with hb6 | hb6
              · rcases le_or_lt a (-(315/2)) with hb7 | hb7
                · -- N8
                  have hn : neighoboringAngles a = (-135, -180) := by
                    unfold neighoboringAngles
                    rw [if_neg hA, if_neg (by linarith), if_neg (by linarith),
                      if_neg (by linarith), if_pos (by linarith)]
                  refine Or.inr (Or.inr (Or.inr (Or.inr (Or.inr (Or.inr (Or.inr
                    (Or.inr (Or.inr (Or.inr (Or.inr (Or.inr (Or.inr (Or.inr
                    (Or.inr ⟨?_, hlo, hb7⟩))))))))))))))
                  rw [closestOther_eq a (-135) (-180) hn,
                    if_pos (by
                      rw [show a - (-135 : ℚ) = a + 135 by ring,
                        show a - (-180 : ℚ) = a + 180 by ring,
                        abs_of_nonpos (by linarith : a + 135 ≤ 0),
                        abs_of_nonneg (by linarith : (0:ℚ) ≤ a + 180)]
                      linarith)]
                · -- N7
                  have hn : neighoboringAngles a = (-135, -180) := by
                    unfold neighoboringAngles
                    rw [if_neg hA, if_neg (by linarith), if_neg (by linarith),
                      if_neg (by linarith), if_pos (by linarith)]
                  refine Or.inr (Or.inr (Or.inr (Or.inr (Or.inr (Or.inr (Or.inr
                    (Or.inr (Or.inr (Or.inr (Or.inr (Or.inr (Or.inr (Or.inr
                    (Or.inl ⟨?_, hb7, hb6⟩))))))))))))))
                  rw [closestOther_eq a (-135) (-180) hn,
                    if_neg (by
                      rw [show a - (-135 : ℚ) = a + 135 by ring,
                        show a - (-180 : ℚ) = a + 180 by ring,
                        abs_of_nonpos (by linarith : a + 135 ≤ 0),
                        abs_of_nonneg (by linarith : (0:ℚ) ≤ a + 180)]
                      intro hc; linarith)]
              · -- N6
                have hn : neighoboringAngles a = (-90, -135) := by
                  unfold neighoboringAngles
                  rw [if_neg hA, if_neg (by linarith), if_neg (by linarith),
                    if_pos (by linarith)]
                refine Or.inr (Or.inr (Or.inr (Or.inr (Or.inr (Or.inr (Or.inr
                  (Or.inr (Or.inr (Or.inr (Or.inr (Or.inr (Or.inr (Or.inl
                  ⟨?_, hb6, hb5⟩)))))))))))))
                rw [closestOther_eq a (-90) (-135) hn,
                  if_pos (by
                    rw [show a - (-90 : ℚ) = a + 90 by ring,
                      show a - (-135 : ℚ) = a + 135 by ring,
                      abs_of_nonpos (by linarith : a + 90 ≤ 0),
                      abs_of_nonneg (by linarith : (0:ℚ) ≤ a + 135)]
                    linarith)]
            · -- N5
              have hn : neighoboringAngles a = (-90, -135) := by
                unfold neighoboringAngles
                rw [if_neg hA, if_neg (by linarith), if_neg (by linarith),
                  if_pos (by linarith)]
              refine Or.inr (Or.inr (Or.inr (Or.inr (Or.inr (Or.inr (Or.inr
                (Or.inr (Or.inr (Or.inr (Or.inr (Or.inr (Or.inl
                ⟨?_, hb5, hb4⟩))))))))))))
              rw [closestOther_eq a (-90) (-135) hn,
                if_neg (by
                  rw [show a - (-90 : ℚ) = a + 90 by ring,
                    show a - (-135 : ℚ) = a + 135 by ring,
                    abs_of_nonpos (by linarith : a + 90 ≤ 0),
                    abs_of_nonneg (by linarith : (0:ℚ) ≤ a + 135)]
                  intro hc; linarith)]
          · -- N4
            have hn : neighoboringAngles a = (-45, -90) := by
              unfold neighoboringAngles
              rw [if_neg hA, if_neg (by linarith), if_pos (by linarith)]
            refine Or.inr (Or.inr (Or.inr (Or.inr (Or.inr (Or.inr (Or.inr
              (Or.inr (Or.inr (Or.inr (Or.inr (Or.inl
              ⟨?_, hb4, hb3⟩)))))))))))
            rw [closestOther_eq a (-45) (-90) hn,
              if_pos (by
                rw [show a - (-45 : ℚ) = a + 45 by ring,
                  show a - (-90 : ℚ) = a + 90 by ring,
                  abs_of_nonpos (by linarith : a + 45 ≤ 0),
                  abs_of_nonneg (by linarith : (0:ℚ) ≤ a + 90)]
                linarith)]
        · -- N3
          have hn : neighoboringAngles a = (-45, -90) := by
            unfold neighoboringAngles
            rw [if_neg hA, if_neg (by linarith), if_pos (by linarith)]
          refine Or.inr (Or.inr (Or.inr (Or.inr (Or.inr (Or.inr (Or.inr
            (Or.inr (Or.inr (Or.inr (Or.inl ⟨?_, hb3, hb2⟩))))))))))
          rw [closestOther_eq a (-45) (-90) hn,
            if_neg (by
              rw [show a - (-45 : ℚ) = a + 45 by ring,
                show a - (-90 : ℚ) = a + 90 by ring,
                abs_of_nonpos (by linarith : a + 45 ≤ 0),
                abs_of_nonneg (by linarith : (0:ℚ) ≤ a + 90)]
              intro hc; linarith)]
      · -- N2
        have hn : neighoboringAngles a = (0, -45) := by
          unfold neighoboringAngles
          rw [if_neg hA, if_pos (by linarith)]
        refine Or.inr (Or.inr (Or.inr (Or.inr (Or.inr (Or.inr (Or.inr
          (Or.inr (Or.inr (Or.inl ⟨?_, hb2, hb1⟩)))))))))
        rw [closestOther_eq a 0 (-45) hn,
          if_pos (by
            rw [sub_zero, show a - (-45 : ℚ) = a + 45 by ring,
              abs_of_nonpos (by linarith : a ≤ 0),
              abs_of_nonneg (by linarith : (0:ℚ) ≤ a + 45)]
            linarith)]
    · -- N1
      have hn : neighoboringAngles a = (0, -45) := by
        unfold neighoboringAngles
        rw [if_neg hA, if_pos (by linarith)]
      refine Or.inr (Or.inr (Or.inr (Or.inr (Or.inr (Or.inr (Or.inr
        (Or.inr (Or.inl ⟨?_, hb1, hP⟩))))))))
      rw [closestOther_eq a 0 (-45) hn,
        if_neg (by
          rw [sub_zero, show a - (-45 : ℚ) = a + 45 by ring,
            abs_of_nonpos (by linarith : a ≤ 0),
            abs_of_nonneg (by linarith : (0:ℚ) ≤ a + 45)]
          intro hc; linarith)]
  · -- positive side
    rcases lt_or_le a (45/2) with hb1 | hb1
    · -- P1
      have hn : neighoboringAngles a = (0, 45) := by
        unfold neighoboringAngles
        rw [if_pos hP, if_pos (by linarith)]
      refine Or.inl ⟨?_, hP, hb1⟩
      rw [closestOther_eq a 0 45 hn,
        if_neg (by
          rw [sub_zero, abs_of_pos hP,
            abs_of_neg (by linarith : a - 45 < 0)]
          intro hc; linarith)]
    · rcases lt_or_le a 45 with hb2 | hb2
      · -- P2
        have hn : neighoboringAngles a = (0, 45) := by
          unfold neighoboringAngles
          rw [if_pos hP, if_pos (by linarith)]
        refine Or.inr (Or.inl ⟨?_, hb1, hb2⟩)
        rw [closestOther_eq a 0 45 hn,
          if_pos (by
            rw [sub_zero, abs_of_pos hP,
              abs_of_neg (by linarith : a - 45 < 0)]
            linarith)]
      · rcases lt_or_le a (135/2) with hb3 | hb3
        · -- P3
          have hn : neighoboringAngles a = (45, 90) := by
            unfold neighoboringAngles
            rw [if_pos hP, if_neg (by linarith), if_pos (by linarith)]
          refine Or.inr (Or.inr (Or.inl ⟨?_, hb2, hb3⟩))
          rw [closestOther_eq a 45 90 hn,
            if_neg (by
              rw [abs_of_nonneg (by linarith : (0:ℚ) ≤ a - 45),
                abs_of_neg (by linarith : a - 90 < 0)]
              intro hc; linarith)]
        · rcases lt_or_le a 90 with hb4 | hb4
          · -- P4
            have hn : neighoboringAngles a = (45, 90) := by
              unfold neighoboringAngles
              rw [if_pos hP, if_neg (by linarith), if_pos (by linarith)]
            refine Or.inr (Or.inr (Or.inr (Or.inl ⟨?_, hb3, hb4⟩)))
            rw [closestOther_eq a 45 90 hn,
              if_pos (by
                rw [abs_of_nonneg (by linarith : (0:ℚ) ≤ a - 45),
                  abs_of_neg (by linarith : a - 90 < 0)]
                linarith)]
          · rcases lt_or_le a (225/2) with hb5 | hb5
            · -- P5
              have hn : neighoboringAngles a = (90, 135) := by
                unfold neighoboringAngles
                rw [if_pos hP, if_neg (by linarith), if_neg (by linarith),
                  if_pos (by linarith)]
              refine Or.inr (Or.inr (Or.inr (Or.inr (Or.inl ⟨?_, hb4, hb5⟩))))
              rw [closestOther_eq a 90 135 hn,
                if_neg (by
                  rw [abs_of_nonneg (by linarith : (0:ℚ) ≤ a - 90),
                    abs_of_neg (by linarith : a - 135 < 0)]
                  intro hc; linarith)]
            · rcases lt_or_le a 135 with hb6 | hb6
              · -- P6
                have hn : neighoboringAngles a = (90, 135) := by
                  unfold neighoboringAngles
                  rw [if_pos hP, if_neg (by linarith), if_neg (by linarith),
                    if_pos (by linarith)]
                refine Or.inr (Or.inr (Or.inr (Or.inr (Or.inr (Or.inl
                  ⟨?_, hb5, hb6⟩)))))
                rw [closestOther_eq a 90 135 hn,
                  if_pos (by
                    rw [abs_of_nonneg (by linarith : (0:ℚ) ≤ a - 90),
                      abs_of_neg (by linarith : a - 135 < 0)]
                    linarith)]
              · rcases lt_or_le a (315/2) with hb7 | hb7
                · -- P7
                  have hn : neighoboringAngles a = (135, 180) := by
                    unfold neighoboringAngles
                    rw [if_pos hP, if_neg (by linarith), if_neg (by linarith),
                      if_neg (by linarith), if_pos (by linarith)]
                  refine Or.inr (Or.inr (Or.inr (Or.inr (Or.inr (Or.inr
                    (Or.inl ⟨?_, hb6, hb7⟩))))))
                  rw [closestOther_eq a 135 180 hn,
                    if_neg (by
                      rw [abs_of_nonneg (by linarith : (0:ℚ) ≤ a - 135),
                        abs_of_nonpos (by linarith : a - 180 ≤ 0)]
                      intro hc; linarith)]
                · -- P8
                  have hn : neighoboringAngles a = (135, 180) := by
                    unfold neighoboringAngles
                    rw [if_pos hP, if_neg (by linarith), if_neg (by linarith),
                      if_neg (by linarith), if_pos (by linarith)]
                  refine Or.inr (Or.inr (Or.inr (Or.inr (Or.inr (Or.inr
                    (Or.inr (Or.inl ⟨?_, hb7, hhi⟩)))))))
                  rw [closestOther_eq a 135 180 hn,
                    if_pos (by
                      rw [abs_of_nonneg (by linarith : (0:ℚ) ≤ a - 135),
                        abs_of_nonpos (by linarith : a - 180 ≤ 0)]
                      linarith)]

theorem displacement_pos_big (a c o : ℚ) (h1 : |a| > |c|) (h2 : c ≠ 0) :
    displacement a c o = c / a := by
  unfold displacement
  rw [if_pos ⟨h1, h2⟩]

theorem displacement_small (a c o : ℚ) (h1 : ¬ |a| > |c|) (h2 : c ≠ 0) :
    displacement a c o = a / c := by
  unfold displacement
  rw [if_neg (by tauto), if_pos h2]

theorem displacement_zero (a o : ℚ) : displacement a 0 o = 1 - a / o := by
  unfold displacement
  simp

/-- The majority fraction computed for any bearing in `[-180, 180]` lies in
`[1/2, 1]`. -/
theorem displacement_range (a : ℚ) (hlo : -180 ≤ a) (hhi : a ≤ 180) :
    1/2 ≤ displacement a (closestOther a).1 (closestOther a).2 ∧
    displacement a (closestOther a).1 (closestOther a).2 ≤ 1 := by
  rcases co_spec a hlo hhi with ⟨hco, hl, hr⟩ | ⟨hco, hl, hr⟩ | ⟨hco, hl, hr⟩ |
    ⟨hco, hl, hr⟩ | ⟨hco, hl, hr⟩ | ⟨hco, hl, hr⟩ | ⟨hco, hl, hr⟩ | ⟨hco, hl, hr⟩ |
    ⟨hco, hl, hr⟩ | ⟨hco, hl, hr⟩ | ⟨hco, hl, hr⟩ | ⟨hco, hl, hr⟩ | ⟨hco, hl, hr⟩ |
    ⟨hco, hl, hr⟩ | ⟨hco, hl, hr⟩ | ⟨hco, hl, hr⟩ <;> rw [hco]
  · -- P1 : closest 0, other 45, 0 < a < 22.5
    rw [displacement_zero]
    constructor
    · have h : a / 45 ≤ 1/2 := by
        rw [div_le_iff (by norm_num : (0:ℚ) < 45)]; linarith
      linarith
    · have h : 0 ≤ a / 45 := by positivity
      linarith
  · -- P2 : closest 45, other 0, 22.5 ≤ a < 45
    rw [displacement_small a 45 0
      (by rw [abs_of_pos (by linarith), show |(45:ℚ)| = 45 by norm_num]
          exact not_lt.mpr (by linarith)) (by norm_num)]
    constructor
    · rw [le_div_iff (by norm_num : (0:ℚ) < 45)]; linarith
    · rw [div_le_one (by norm_num : (0:ℚ) < 45)]; linarith
  · -- P3 : closest 45, other 90, 45 ≤ a < 67.5
    rcases eq_or_lt_of_le hl with heq | hgt
    · rw [displacement_small a 45 90
        (by rw [abs_of_pos (by linarith), show |(45:ℚ)| = 45 by norm_num]
            exact not_lt.mpr (by linarith)) (by norm_num)]
      rw [← heq]
      norm_num
    · rw [displacement_pos_big a 45 90
        (by rw [abs_of_pos (by linarith), show |(45:ℚ)| = 45 by norm_num]
            exact hgt) (by norm_num)]
      constructor
      · rw [le_div_iff (by linarith : (0:ℚ) < a)]; linarith
      · rw [div_le_one (by linarith : (0:ℚ) < a)]; linarith
  · -- P4 : closest 90, other 45, 67.5 ≤ a < 90
    rw [displacement_small a 90 45
      (by rw [abs_of_pos (by linarith), show |(90:ℚ)| = 90 by norm_num]
          exact not_lt.mpr (by linarith)) (by norm_num)]
    constructor
    · rw [le_div_iff (by norm_num : (0:ℚ) < 90)]; linarith
    · rw [div_le_one (by norm_num : (0:ℚ) < 90)]; linarith
  · -- P5 : closest 90, other 135, 90 ≤ a < 112.5
    rcases eq_or_lt_of_le hl with heq | hgt
    · rw [displacement_small a 90 135
        (by rw [abs_of_pos (by linarith), show |(90:ℚ)| = 90 by norm_num]
            exact not_lt.mpr (by linarith)) (by norm_num)]
      rw [← heq]
      norm_num
    · rw [displacement_pos_big a 90 135
        (by rw [abs_of_pos (by linarith), show |(90:ℚ)| = 90 by norm_num]
            exact hgt) (by norm_num)]
      constructor
      · rw [le_div_iff (by linarith : (0:ℚ) < a)]; linarith
      · rw [div_le_one (by linarith : (0:ℚ) < a)]; linarith
  · -- P6 : closest 135, other 90, 112.5 ≤ a < 135
    rw [displacement_small a 135 90
      (by rw [abs_of_pos (by linarith), show |(135:ℚ)| = 135 by norm_num]
          exact not_lt.mpr (by linarith)) (by norm_num)]
    constructor
    · rw [le_div_iff (by norm_num : (0:ℚ) < 135)]; linarith
    · rw [div_le_one (by norm_num : (0:ℚ) < 135)]; linarith
  · -- P7 : closest 135, other 180, 135 ≤ a < 157.5
    rcases eq_or_lt_of_le hl with heq | hgt
    · rw [displacement_small a 135 180
        (by rw [abs_of_pos (by linarith), show |(135:ℚ)| = 135 by norm_num]
            exact not_lt.mpr (by linarith)) (by norm_num)]
      rw [← heq]
      norm_num
    · rw [displacement_pos_big a 135 180
        (by rw [abs_of_pos (by linarith), show |(135:ℚ)| = 135 by norm_num]
            exact hgt) (by norm_num)]
      constructor
      · rw [le_div_iff (by linarith : (0:ℚ) < a)]; linarith
      · rw [div_le_one (by linarith : (0:ℚ) < a)]; linarith
  · -- P8 : closest 180, other 135, 157.5 ≤ a ≤ 180
    rw [displacement_small a 180 135
      (by rw [abs_of_pos (by linarith), show |(180:ℚ)| = 180 by norm_num]
          exact not_lt.mpr (by linarith)) (by norm_num)]
    constructor
    · rw [le_div_iff (by norm_num : (0:ℚ) < 180)]; linarith
    · rw [div_le_one (by norm_num : (0:ℚ) < 180)]; linarith
  · -- N1 : closest 0, other -45, -22.5 < a ≤ 0
    rw [displacement_zero, div_neg]
    constructor
    · have h : -(1/2) ≤ a / 45 := by
        rw [le_div_iff (by norm_num : (0:ℚ) < 45)]; linarith
      linarith
    · have h : a / 45 ≤ 0 := by
        rw [div_le_iff (by norm_num : (0:ℚ) < 45)]; linarith
      linarith
  · -- N2 : closest -45, other 0, -45 < a ≤ -22.5
    rw [displacement_small a (-45) 0
      (by rw [abs_of_nonpos (by linarith), show |(-45:ℚ)| = 45 by norm_num]
          exact not_lt.mpr (by linarith)) (by norm_num), div_neg]
    constructor
    · have h : a / 45 ≤ -(1/2) := by
        rw [div_le_iff (by norm_num : (0:ℚ) < 45)]; linarith
      linarith
    · have h : -1 ≤ a / 45 := by
        rw [le_div_iff (by norm_num : (0:ℚ) < 45)]; linarith
      linarith
  · -- N3 : closest -45, other -90, -67.5 < a ≤ -45
    rcases eq_or_lt_of_le hr with heq | hlt
    · rw [displacement_small a (-45) (-90)
        (by rw [abs_of_nonpos (by linarith), show |(-45:ℚ)| = 45 by norm_num]
            exact not_lt.mpr (by linarith)) (by norm_num)]
      rw [heq]
      norm_num
    · rw [displacement_pos_big a (-45) (-90)
        (by rw [abs_of_nonpos (by linarith), show |(-45:ℚ)| = 45 by norm_num]
            linarith) (by norm_num),
        show ((-45:ℚ)) / a = 45 / (-a) by rw [neg_div, ← div_neg]]
      constructor
      · rw [le_div_iff (by linarith : (0:ℚ) < -a)]; linarith
      · rw [div_le_one (by linarith : (0:ℚ) < -a)]; linarith
  · -- N4 : closest -90, other -45, -90 < a ≤ -67.5
    rw [displacement_small a (-90) (-45)
      (by rw [abs_of_nonpos (by linarith), show |(-90:ℚ)| = 90 by norm_num]
          exact not_lt.mpr (by linarith)) (by norm_num), div_neg]
    constructor
    · have h : a / 90 ≤ -(1/2) := by
        rw [div_le_iff (by norm_num : (0:ℚ) < 90)]; linarith
      linarith
    · have h : -1 ≤ a / 90 := by
        rw [le_div_iff (by norm_num : (0:ℚ) < 90)]; linarith
      linarith
  · -- N5 : closest -90, other -135, -112.5 < a ≤ -90
    rcases eq_or_lt_of_le hr with heq | hlt
    · rw [displacement_small a (-90) (-135)
        (by rw [abs_of_nonpos (by linarith), show |(-90:ℚ)| = 90 by norm_num]
            exact not_lt.mpr (by linarith)) (by norm_num)]
      rw [heq]
      norm_num
    · rw [displacement_pos_big a (-90) (-135)
        (by rw [abs_of_nonpos (by linarith), show |(-90:ℚ)| = 90 by norm_num]
            linarith) (by norm_num),
        show ((-90:ℚ)) / a = 90 / (-a) by rw [neg_div, ← div_neg]]
      constructor
      · rw [le_div_iff (by linarith : (0:ℚ) < -a)]; linarith
      · rw [div_le_one (by linarith : (0:ℚ) < -a)]; linarith
  · -- N6 : closest -135, other -90, -135 < a ≤ -112.5
    rw [displacement_small a (-135) (-90)
      (by rw [abs_of_nonpos (by linarith), show |(-135:ℚ)| = 135 by norm_num]
          exact not_lt.mpr (by linarith)) (by norm_num), div_neg]
    constructor
    · have h : a / 135 ≤ -(1/2) := by
        rw [div_le_iff (by norm_num : (0:ℚ) < 135)]; linarith
      linarith
    · have h : -1 ≤ a / 135 := by
        rw [le_div_iff (by norm_num : (0:ℚ) < 135)]; linarith
      linarith
  · -- N7 : closest -135, other -180, -157.5 < a ≤ -135
    rcases eq_or_lt_of_le hr with heq | hlt
    · rw [displacement_small a (-135) (-180)
        (by rw [abs_of_nonpos (by linarith), show |(-135:ℚ)| = 135 by norm_num]
            exact not_lt.mpr (by linarith)) (by norm_num)]
      rw [heq]
      norm_num
    · rw [displacement_pos_big a (-135) (-180)
        (by rw [abs_of_nonpos (by linarith), show |(-135:ℚ)| = 135 by norm_num]
            linarith) (by norm_num),
        show ((-135:ℚ)) / a = 135 / (-a) by rw [neg_div, ← div_neg]]
      constructor
      · rw [le_div_iff (by linarith : (0:ℚ) < -a)]; linarith
      · rw [div_le_one (by linarith : (0:ℚ) < -a)]; linarith
  · -- N8 : closest -180, other -135, -180 ≤ a ≤ -157.5
    rw [displacement_small a (-180) (-135)
      (by rw [abs_of_nonpos (by linarith), show |(-180:ℚ)| = 180 by norm_num]
          exact not_lt.mpr (by linarith)) (by norm_num), div_neg]
    constructor
    · have h : a / 180 ≤ -(1/2) := by
        rw [div_le_iff (by norm_num : (0:ℚ) < 180)]; linarith
      linarith
    · have h : -1 ≤ a / 180 := by
        rw [le_div_iff (by norm_num : (0:ℚ) < 180)]; linarith
      linarith

theorem pd_eval_1 (a : ℚ) (ha : a > 0) (e : List estimate) (x y : ℤ) (d : ℚ) :
    placeDanger a e 0 45 x y d =
      e ++ [⟨x, y - 1, if d ≥ 2/5 then 2/5 else d⟩,
            ⟨x + 1, y - 1, if 1 - d ≥ 2/5 then 2/5 else 1 - d⟩] := by
  unfold placeDanger
  dsimp only
  rw [if_pos ha, if_pos rfl]

theorem pd_eval_2 (a : ℚ) (ha : a > 0) (e : List estimate) (x y : ℤ) (d : ℚ) :
    placeDanger a e 45 0 x y d =
      e ++ [⟨x + 1, y - 1, if d ≥ 2/5 then 2/5 else d⟩,
            ⟨x, y - 1, if 1 - d ≥ 2/5 then 2/5 else 1 - d⟩] := by
  unfold placeDanger
  dsimp only
  rw [if_pos ha, if_neg (by norm_num), if_pos ⟨rfl, rfl⟩]

theorem pd_eval_3 (a : ℚ) (ha : a > 0) (e : List estimate) (x y : ℤ) (d : ℚ) :
    placeDanger a e 45 90 x y d =
      e ++ [⟨x + 1, y - 1, if d ≥ 2/5 then 2/5 else d⟩,
            ⟨x + 1, y, if 1 - d ≥ 2/5 then 2/5 else 1 - d⟩] := by
  unfold placeDanger
  dsimp only
  rw [if_pos ha, if_neg (by norm_num), if_neg (by norm_num), if_pos rfl]

theorem pd_eval_4 (a : ℚ) (ha : a > 0) (e : List estimate) (x y : ℤ) (d : ℚ) :
    placeDanger a e 90 45 x y d =
      e ++ [⟨x + 1, y, if d ≥ 2/5 then 2/5 else d⟩,
            ⟨x + 1, y - 1, if 1 - d ≥ 2/5 then 2/5 else 1 - d⟩] := by
  unfold placeDanger
  dsimp only
  rw [if_pos ha, if_neg (by norm_num), if_neg (by norm_num), if_neg (by norm_num),
    if_pos ⟨rfl, rfl⟩]

theorem pd_eval_5 (a : ℚ) (ha : a > 0) (e : List estimate) (x y : ℤ) (d : ℚ) :
    placeDanger a e 90 135 x y d =
      e ++ [⟨x + 1, y, if d ≥ 2/5 then 2/5 else d⟩,
            ⟨x + 1, y + 1, if 1 - d ≥ 2/5 then 2/5 else 1 - d⟩] := by
  unfold placeDanger
  dsimp only
  rw [if_pos ha, if_neg (by norm_num), if_neg (by norm_num), if_neg (by norm_num),
    if_neg (by norm_num), if_pos rfl]

theorem pd_eval_6 (a : ℚ) (ha : a > 0) (e : List estimate) (x y : ℤ) (d : ℚ) :
    placeDanger a e 135 90 x y d =
      e ++ [⟨x + 1, y + 1, if d ≥ 2/5 then 2/5 else d⟩,
            ⟨x + 1, y, if 1 - d ≥ 2/5 then 2/5 else 1 - d⟩] := by
  unfold placeDanger
  dsimp only
  rw [if_pos ha, if_neg (by norm_num), if_neg (by norm_num), if_neg (by norm_num),
    if_neg (by norm_num), if_neg (by norm_num), if_pos ⟨rfl, rfl⟩]

theorem pd_eval_7 (a : ℚ) (ha : a > 0) (e : List estimate) (x y : ℤ) (d : ℚ) :
    placeDanger a e 135 180 x y d =
      e ++ [⟨x + 1, y + 1, if d ≥ 2/5 then 2/5 else d⟩,
            ⟨x, y + 1, if 1 - d ≥ 2/5 then 2/5 else 1 - d⟩] := by
  unfold placeDanger
  dsimp only
  rw [if_pos ha, if_neg (by norm_num), if_neg (by norm_num), if_neg (by norm_num),
    if_neg (by norm_num), if_neg (by norm_num), if_neg (by norm_num), if_pos rfl]

theorem pd_eval_8 (a : ℚ) (ha : a > 0) (e : List estimate) (x y : ℤ) (d : ℚ) :
    placeDanger a e 180 135 x y d =
      e ++ [⟨x, y + 1, if d ≥ 2/5 then 2/5 else d⟩,
            ⟨x + 1, y + 1, if 1 - d ≥ 2/5 then 2/5 else 1 - d⟩] := by
  unfold placeDanger
  dsimp only
  rw [if_pos ha, if_neg (by norm_num), if_neg (by norm_num), if_neg (by norm_num),
    if_neg (by norm_num), if_neg (by norm_num), if_neg (by norm_num),
    if_neg (by norm_num)]

theorem pd_eval_9 (a : ℚ) (ha : ¬ a > 0) (e : List estimate) (x y : ℤ) (d : ℚ) :
    placeDanger a e 0 (-45) x y d =
      e ++ [⟨x, y - 1, if d ≥ 2/5 then 2/5 else d⟩,
            ⟨x - 1, y - 1, if 1 - d ≥ 2/5 then 2/5 else 1 - d⟩] := by
  unfold placeDanger
  dsimp only
  rw [if_neg ha, if_pos rfl]

theorem pd_eval_10 (a : ℚ) (ha : ¬ a > 0) (e : List estimate) (x y : ℤ) (d : ℚ) :
    placeDanger a e (-45) 0 x y d =
      e ++ [⟨x - 1, y - 1, if d ≥ 2/5 then 2/5 else d⟩,
            ⟨x, y - 1, if 1 - d ≥ 2/5 then 2/5 else 1 - d⟩] := by
  unfold placeDanger
  dsimp only
  rw [if_neg ha, if_neg (by norm_num), if_pos ⟨rfl, rfl⟩]

theorem pd_eval_11 (a : ℚ) (ha : ¬ a > 0) (e : List estimate) (x y : ℤ) (d : ℚ) :
    placeDanger a e (-45) (-90) x y d =
      e ++ [⟨x - 1, y - 1, if d ≥ 2/5 then 2/5 else d⟩,
            ⟨x - 1, y, if 1 - d ≥ 2/5 then 2/5 else 1 - d⟩] := by
  unfold placeDanger
  dsimp only
  rw [if_neg ha, if_neg (by norm_num), if_neg (by norm_num), if_pos rfl]

theorem pd_eval_12 (a : ℚ) (ha : ¬ a > 0) (e : List estimate) (x y : ℤ) (d : ℚ) :
    placeDanger a e (-90) (-45) x y d =
      e ++ [⟨x - 1, y, if d ≥ 2/5 then 2/5 else d⟩,
            ⟨x - 1, y - 1, if 1 - d ≥ 2/5 then 2/5 else 1 - d⟩] := by
  unfold placeDanger
  dsimp only
  rw [if_neg ha, if_neg (by norm_num), if_neg (by norm_num), if_neg (by norm_num),
    if_pos ⟨rfl, rfl⟩]

theorem pd_eval_13 (a : ℚ) (ha : ¬ a > 0) (e : List estimate) (x y : ℤ) (d : ℚ) :
    placeDanger a e (-90) (-135) x y d =
      e ++ [⟨x - 1, y, if d ≥ 2/5 then 2/5 else d⟩,
            ⟨x - 1, y + 1, if 1 - d ≥ 2/5 then 2/5 else 1 - d⟩] := by
  unfold placeDanger
  dsimp only
  rw [if_neg ha, if_neg (by norm_num), if_neg (by norm_num), if_neg (by norm_num),
    if_neg (by norm_num), if_pos rfl]

theorem pd_eval_14 (a : ℚ) (ha : ¬ a > 0) (e : List estimate) (x y : ℤ) (d : ℚ) :
    placeDanger a e (-135) (-90) x y d =
      e ++ [⟨x - 1, y + 1, if d ≥ 2/5 then 2/5 else d⟩,
            ⟨x - 1, y, if 1 - d ≥ 2/5 then 2/5 else 1 - d⟩] := by
  unfold placeDanger
  dsimp only
  rw [if_neg ha, if_neg (by norm_num), if_neg (by norm_num), if_neg (by norm_num),
    if_neg (by norm_num), if_neg (by norm_num), if_pos ⟨rfl, rfl⟩]

theorem pd_eval_15 (a : ℚ) (ha : ¬ a > 0) (e : List estimate) (x y : ℤ) (d : ℚ) :
    placeDanger a e (-135) (-180) x y d =
      e ++ [⟨x - 1, y + 1, if d ≥ 2/5 then 2/5 else d⟩,
            ⟨x, y + 1, if 1 - d ≥ 2/5 then 2/5 else 1 - d⟩] := by
  unfold placeDanger
  dsimp only
  rw [if_neg ha, if_neg (by norm_num), if_neg (by norm_num), if_neg (by norm_num),
    if_neg (by norm_num), if_neg (by norm_num), if_neg (by norm_num), if_pos rfl]

theorem pd_eval_16 (a : ℚ) (ha : ¬ a > 0) (e : List estimate) (x y : ℤ) (d : ℚ) :
    placeDanger a e (-180) (-135) x y d =
      e ++ [⟨x, y + 1, if d ≥ 2/5 then 2/5 else d⟩,
            ⟨x - 1, y + 1, if 1 - d ≥ 2/5 then 2/5 else 1 - d⟩] := by
  unfold placeDanger
  dsimp only
  rw [if_neg ha, if_neg (by norm_num), if_neg (by norm_num), if_neg (by norm_num),
    if_neg (by norm_num), if_neg (by norm_num), if_neg (by norm_num),
    if_neg (by norm_num)]

/-- One placement step, under the facts the bearing formula guarantees:
the two appended estimates carry the clamped majority/remainder fractions,
and the first (majority) cell is strictly Manhattan-closer to the
destination than the current point. -/
theorem step_cell (x1 y1 x2 y2 : ℤ) (a : ℚ) (hs : AngleSpec x1 y1 x2 y2 a)
    (e : List estimate) (d : ℚ) :
    ∃ c1 c2 : estimate,
      placeDanger a e (closestOther a).1 (closestOther a).2 x1 y1 d = e ++ [c1, c2] ∧
      c1.danger = (if d ≥ 2/5 then 2/5 else d) ∧
      c2.danger = (if 1 - d ≥ 2/5 then 2/5 else 1 - d) ∧
      manhattan c1.x c1.y x2 y2 < manhattan x1 y1 x2 y2 := by
  obtain ⟨hlo, hhi, hxpos, hxneg, hyN, hyS⟩ := hs
  rcases co_spec a hlo hhi with ⟨hco, hl, hr⟩ | ⟨hco, hl, hr⟩ | ⟨hco, hl, hr⟩ |
    ⟨hco, hl, hr⟩ | ⟨hco, hl, hr⟩ | ⟨hco, hl, hr⟩ | ⟨hco, hl, hr⟩ | ⟨hco, hl, hr⟩ |
    ⟨hco, hl, hr⟩ | ⟨hco, hl, hr⟩ | ⟨hco, hl, hr⟩ | ⟨hco, hl, hr⟩ | ⟨hco, hl, hr⟩ |
    ⟨hco, hl, hr⟩ | ⟨hco, hl, hr⟩ | ⟨hco, hl, hr⟩ <;> rw [hco]
  · -- P1 : N cell
    refine ⟨_, _, pd_eval_1 a (by linarith) e x1 y1 d, rfl, rfl, ?_⟩
    have hy : y2 < y1 := hyN.mp
      (by rw [abs_of_pos (show (0:ℚ) < a by linarith)]; linarith)
    unfold manhattan
    dsimp only
    omega
  · -- P2 : NE cell
    refine ⟨_, _, pd_eval_2 a (by linarith) e x1 y1 d, rfl, rfl, ?_⟩
    have hx : x1 < x2 := hxpos.mp ⟨by linarith, by linarith⟩
    have hy : y2 < y1 := hyN.mp
      (by rw [abs_of_pos (show (0:ℚ) < a by linarith)]; linarith)
    unfold manhattan
    dsimp only
    omega
  · -- P3 : NE cell
    refine ⟨_, _, pd_eval_3 a (by linarith) e x1 y1 d, rfl, rfl, ?_⟩
    have hx : x1 < x2 := hxpos.mp ⟨by linarith, by linarith⟩
    have hy : y2 < y1 := hyN.mp
      (by rw [abs_of_pos (show (0:ℚ) < a by linarith)]; linarith)
    unfold manhattan
    dsimp only
    omega
  · -- P4 : E cell
    refine ⟨_, _, pd_eval_4 a (by linarith) e x1 y1 d, rfl, rfl, ?_⟩
    have hx : x1 < x2 := hxpos.mp ⟨by linarith, by linarith⟩
    unfold manhattan
    dsimp only
    omega
  · -- P5 : E cell
    refine ⟨_, _, pd_eval_5 a (by linarith) e x1 y1 d, rfl, rfl, ?_⟩
    have hx : x1 < x2 := hxpos.mp ⟨by linarith, by linarith⟩
    unfold manhattan
    dsimp only
    omega
  · -- P6 : SE cell
    refine ⟨_, _, pd_eval_6 a (by linarith) e x1 y1 d, rfl, rfl, ?_⟩
    have hx : x1 < x2 := hxpos.mp ⟨by linarith, by linarith⟩
    have hy : y1 < y2 := hyS.mp
      (by rw [abs_of_pos (show (0:ℚ) < a by linarith)]; linarith)
    unfold manhattan
    dsimp only
    omega
  · -- P7 : SE cell
    refine ⟨_, _, pd_eval_7 a (by linarith) e x1 y1 d, rfl, rfl, ?_⟩
    have hx : x1 < x2 := hxpos.mp ⟨by linarith, by linarith⟩
    have hy : y1 < y2 := hyS.mp
      (by rw [abs_of_pos (show (0:ℚ) < a by linarith)]; linarith)
    unfold manhattan
    dsimp only
    omega
  · -- P8 : S cell
    refine ⟨_, _, pd_eval_8 a (by linarith) e x1 y1 d, rfl, rfl, ?_⟩
    have hy : y1 < y2 := hyS.mp
      (by rw [abs_of_pos (show (0:ℚ) < a by linarith)]; linarith)
    unfold manhattan
    dsimp only
    omega
  · -- N1 : N cell
    refine ⟨_, _, pd_eval_9 a (by linarith) e x1 y1 d, rfl, rfl, ?_⟩
    have hy : y2 < y1 := hyN.mp
      (by rw [abs_of_nonpos (show a ≤ (0:ℚ) by linarith)]; linarith)
    unfold manhattan
    dsimp only
    omega
  · -- N2 : NW cell
    refine ⟨_, _, pd_eval_10 a (by linarith) e x1 y1 d, rfl, rfl, ?_⟩
    have hx : x2 < x1 := hxneg.mp (by linarith)
    have hy : y2 < y1 := hyN.mp
      (by rw [abs_of_nonpos (show a ≤ (0:ℚ) by linarith)]; linarith)
    unfold manhattan
    dsimp only
    omega
  · -- N3 : NW cell
    refine ⟨_, _, pd_eval_11 a (by linarith) e x1 y1 d, rfl, rfl, ?_⟩
    have hx : x2 < x1 := hxneg.mp (by linarith)
    have hy : y2 < y1 := hyN.mp
      (by rw [abs_of_nonpos (show a ≤ (0:ℚ) by linarith)]; linarith)
    unfold manhattan
    dsimp only
    omega
  · -- N4 : W cell
    refine ⟨_, _, pd_eval_12 a (by linarith) e x1 y1 d, rfl, rfl, ?_⟩
    have hx : x2 < x1 := hxneg.mp (by linarith)
    unfold manhattan
    dsimp only
    omega
  · -- N5 : W cell
    refine ⟨_, _, pd_eval_13 a (by linarith) e x1 y1 d, rfl, rfl, ?_⟩
    have hx : x2 < x1 := hxneg.mp (by linarith)
    unfold manhattan
    dsimp only
    omega
  · -- N6 : SW cell
    refine ⟨_, _, pd_eval_14 a (by linarith) e x1 y1 d, rfl, rfl, ?_⟩
    have hx : x2 < x1 := hxneg.mp (by linarith)
    have hy : y1 < y2 := hyS.mp
      (by rw [abs_of_nonpos (show a ≤ (0:ℚ) by linarith)]; linarith)
    unfold manhattan
    dsimp only
    omega
  · -- N7 : SW cell
    refine ⟨_, _, pd_eval_15 a (by linarith) e x1 y1 d, rfl, rfl, ?_⟩
    have hx : x2 < x1 := hxneg.mp (by linarith)
    have hy : y1 < y2 := hyS.mp
      (by rw [abs_of_nonpos (show a ≤ (0:ℚ) by linarith)]; linarith)
    unfold manhattan
    dsimp only
    omega
  · -- N8 : S cell
    refine ⟨_, _, pd_eval_16 a (by linarith) e x1 y1 d, rfl, rfl, ?_⟩
    have hy : y1 < y2 := hyS.mp
      (by rw [abs_of_nonpos (show a ≤ (0:ℚ) by linarith)]; linarith)
    unfold manhattan
    dsimp only
    omega

/-- One unfolding of `dangerRecurse` away from the destination: the source
appends the two placed estimates and a sentinel, increments the time
counter, and recurses on `theFuture[nextPos]` — the first (majority) new
estimate — because `theFuture[nextPos + 2]` is the sentinel whose danger
`-1` never exceeds `0.3`. -/
theorem dr_step (ang : ℤ → ℤ → ℤ → ℤ → ℚ) (fuel : ℕ) (e : estimate)
    (dest : ℤ × ℤ) (acc : List estimate) (time : ℤ)
    (hne : ¬(dest.1 = e.x ∧ dest.2 = e.y))
    (hs : AngleSpec e.x e.y dest.1 dest.2 (ang e.x e.y dest.1 dest.2)) :
    ∃ c1 c2 : estimate,
      dangerRecurse ang (fuel + 1) e dest acc time
        = dangerRecurse ang fuel c1 dest (acc ++ [c1, c2, ⟨0, 0, -1⟩]) (time + 1) ∧
      c1.danger = 2/5 ∧ 0 ≤ c2.danger ∧ c2.danger ≤ 2/5 ∧
      manhattan c1.x c1.y dest.1 dest.2 < manhattan e.x e.y dest.1 dest.2 := by
  obtain ⟨c1, c2, hpd, hd1, hd2, hman⟩ :=
    step_cell e.x e.y dest.1 dest.2 (ang e.x e.y dest.1 dest.2) hs acc
      (displacement (ang e.x e.y dest.1 dest.2)
        (closestOther (ang e.x e.y dest.1 dest.2)).1
        (closestOther (ang e.x e.y dest.1 dest.2)).2)
  have hrange := displacement_range (ang e.x e.y dest.1 dest.2) hs.1 hs.2.1
  have hc1 : c1.danger = 2/5 := by
    rw [hd1, if_pos (by linarith [hrange.1])]
  have hc2a : 0 ≤ c2.danger := by
    rw [hd2]
    split_ifs with h
    · norm_num
    · linarith [hrange.2]
  have hc2b : c2.danger ≤ 2/5 := by
    rw [hd2]
    split_ifs with h
    · norm_num
    · linarith
  refine ⟨c1, c2, ?_, hc1, hc2a, hc2b, hman⟩
  rw [dangerRecurse, if_neg hne]
  dsimp only
  rw [hpd]
  have hlen : (acc ++ [c1, c2]).length - 2 = acc.length := by simp
  rw [hlen]
  have happ : (acc ++ [c1, c2]) ++ [(⟨0, 0, -1⟩ : estimate)] =
      acc ++ [c1, c2, ⟨0, 0, -1⟩] := by simp
  rw [happ, getD_triple₂ acc c1 c2 ⟨0, 0, -1⟩ default,
    if_neg (show ¬((-1 : ℚ) > 3/10) by norm_num),
    getD_triple₀ acc c1 c2 ⟨0, 0, -1⟩ default]

/-- Fuel one more than the Manhattan distance always suffices, the
recursion returns immediately exactly at the destination, and otherwise
strictly advances the time counter. -/
theorem dangerRecurse_total (ang : ℤ → ℤ → ℤ → ℤ → ℚ)
    (hang : ∀ x1 y1 x2 y2 : ℤ, ¬(x2 = x1 ∧ y2 = y1) →
      AngleSpec x1 y1 x2 y2 (ang x1 y1 x2 y2)) :
    ∀ (n : ℕ) (e : estimate) (dest : ℤ × ℤ) (acc : List estimate) (time : ℤ),
      manhattan e.x e.y dest.1 dest.2 ≤ n →
      ∃ out t', dangerRecurse ang (n + 1) e dest acc time = some (out, t') ∧
        time ≤ t' ∧
        ((dest.1 = e.x ∧ dest.2 = e.y) → out = acc ∧ t' = time) ∧
        (¬(dest.1 = e.x ∧ dest.2 = e.y) → time < t') := by
  intro n
  induction n with
  | zero =>
    intro e dest acc time hm
    have heq : dest.1 = e.x ∧ dest.2 = e.y := by
      unfold manhattan at hm
      omega
    refine ⟨acc, time, ?_, le_refl _, fun _ => ⟨rfl, rfl⟩, fun hne => absurd heq hne⟩
    rw [dangerRecurse, if_pos heq]
  | succ n ih =>
    intro e dest acc time hm
    by_cases heq : dest.1 = e.x ∧ dest.2 = e.y
    · refine ⟨acc, time, ?_, le_refl _, fun _ => ⟨rfl, rfl⟩, fun hne => absurd heq hne⟩
      rw [dangerRecurse, if_pos heq]
    · have hs := hang e.x e.y dest.1 dest.2 heq
      obtain ⟨c1, c2, hstep, _, _, _, hman⟩ := dr_step ang (n + 1) e dest acc time heq hs
      obtain ⟨out, t', hrec, hle, _, _⟩ :=
        ih c1 dest (acc ++ [c1, c2, ⟨0, 0, -1⟩]) (time + 1) (by omega)
      exact ⟨out, t', hstep.trans hrec, by omega, fun h => absurd h heq,
        fun _ => by omega⟩

theorem dangerRecurse_time_mono (ang : ℤ → ℤ → ℤ → ℤ → ℚ) :
    ∀ (n : ℕ) (e : estimate) (dest : ℤ × ℤ) (acc : List estimate) (time : ℤ)
      (out : List estimate) (t' : ℤ),
      dangerRecurse ang n e dest acc time = some (out, t') → time ≤ t' := by
  intro n
  induction n with
  | zero =>
    intro e dest acc time out t' h
    exact absurd h (by rw [dangerRecurse]; exact Option.noConfusion)
  | succ n ih =>
    intro e dest acc time out t' h
    rw [dangerRecurse] at h
    by_cases heq : dest.1 = e.x ∧ dest.2 = e.y
    · rw [if_pos heq] at h
      have : time = t' := (Prod.mk.injEq _ _ _ _ |>.mp (Option.some.inj h)).2
      omega
    · rw [if_neg heq] at h
      dsimp only at h
      split at h
      · have := ih _ _ _ _ _ _ h
        omega
      · have := ih _ _ _ _ _ _ h
        omega

theorem dangerRecurse_good (ang : ℤ → ℤ → ℤ → ℤ → ℚ)
    (hang : ∀ x1 y1 x2 y2 : ℤ, ¬(x2 = x1 ∧ y2 = y1) →
      AngleSpec x1 y1 x2 y2 (ang x1 y1 x2 y2)) :
    ∀ (n : ℕ) (e : estimate) (dest : ℤ × ℤ) (acc : List estimate) (time : ℤ)
      (out : List estimate) (t' : ℤ),
      dangerRecurse ang n e dest acc time = some (out, t') →
      GoodEsts acc → GoodEsts out := by
  intro n
  induction n with
  | zero =>
    intro e dest acc time out t' h
    exact absurd h (by rw [dangerRecurse]; exact Option.noConfusion)
  | succ n ih =>
    intro e dest acc time out t' h hacc
    by_cases heq : dest.1 = e.x ∧ dest.2 = e.y
    · rw [dangerRecurse, if_pos heq] at h
      have : acc = out := (Prod.mk.injEq _ _ _ _ |>.mp (Option.some.inj h)).1
      exact this ▸ hacc
    · have hs := hang e.x e.y dest.1 dest.2 heq
      obtain ⟨c1, c2, hstep, hd1, hd2a, _, _⟩ := dr_step ang n e dest acc time heq hs
      rw [hstep] at h
      refine ih c1 dest _ _ out t' h ?_
      intro est hmem
      rcases List.mem_append.mp hmem with h1 | h2
      · exact hacc est h1
      · simp only [List.mem_cons, List.not_mem_nil, or_false] at h2
        rcases h2 with rfl | rfl | rfl
        · exact Or.inl (by rw [hd1]; norm_num)
        · exact Or.inl hd2a
        · exact Or.inr rfl

theorem goodEsts_nil : GoodEsts [] :=
  fun est h => absurd h (List.not_mem_nil est)

theorem goodEsts_placeDanger (a : ℚ) (e : List estimate) (cl ot : ℚ) (x y : ℤ)
    (d : ℚ) (hd0 : 0 ≤ d) (hd1 : d ≤ 1) (he : GoodEsts e) :
    GoodEsts (placeDanger a e cl ot x y d) := by
  obtain ⟨c1, c2, heq, h1, h2⟩ := placeDanger_shape a e cl ot x y d
  rw [heq]
  intro est hmem
  rcases List.mem_append.mp hmem with hm | hm
  · exact he est hm
  · simp only [List.mem_cons, List.not_mem_nil, or_false] at hm
    rcases hm with rfl | rfl
    · refine Or.inl ?_
      rw [h1]
      split_ifs with hh
      · norm_num
      · linarith
    · refine Or.inl ?_
      rw [h2]
      split_ifs with hh
      · norm_num
      · linarith

theorem goodEsts_sentinel (l : List estimate) (hl : GoodEsts l) :
    GoodEsts (l ++ [⟨0, 0, -1⟩]) := by
  intro est hmem
  rcases List.mem_append.mp hmem with hm | hm
  · exact hl est hm
  · simp only [List.mem_cons, List.not_mem_nil, or_false] at hm
    subst hm
    exact Or.inr rfl

theorem cfp_core_degenerate (ang : ℤ → ℤ → ℤ → ℤ → ℚ) (fuel : ℕ)
    (x1 y1 : ℤ) (btd : ℚ) (time : ℤ) :
    cfp_core ang fuel x1 y1 x1 y1 btd time = some ([], time) := by
  unfold cfp_core
  rw [if_pos ⟨rfl, rfl⟩]

/-- The degenerate case of `calculate_future_pos`: a plane already at its
destination yields the empty stream, with the time counter untouched. -/
theorem cfp_degenerate (ang : ℤ → ℤ → ℤ → ℤ → ℚ) (fuel : ℕ) (p : Plane)
    (h : p.loc = p.dest) :
    calculate_future_pos ang fuel p 0 = some ([], 0) := by
  unfold calculate_future_pos
  dsimp only
  rw [if_pos (show (0:ℤ) = 0 from rfl), if_pos (show (0:ℤ) = 0 from rfl), h]
  exact cfp_core_degenerate ang fuel p.dest.1 p.dest.2 p.bearingToDest 0

theorem cfp_core_time_mono (ang : ℤ → ℤ → ℤ → ℤ → ℚ) (fuel : ℕ)
    (x1 y1 x2 y2 : ℤ) (btd : ℚ) (time : ℤ) (out : List estimate) (t' : ℤ)
    (h : cfp_core ang fuel x1 y1 x2 y2 btd time = some (out, t')) :
    time ≤ t' := by
  unfold cfp_core at h
  dsimp only at h
  split_ifs at h with hdeg
  · have := (Prod.mk.injEq _ _ _ _).mp (Option.some.inj h)
    omega
  · split at h
    · exact absurd h Option.noConfusion
    · rename_i tf3 time2 heq
      have hmono := dangerRecurse_time_mono ang fuel _ _ _ _ _ _ heq
      have ht : time2 = t' := (Prod.mk.injEq _ _ _ _ |>.mp (Option.some.inj h)).2
      omega

theorem cfp_time_mono (ang : ℤ → ℤ → ℤ → ℤ → ℚ) (fuel : ℕ) (p : Plane)
    (time : ℤ) (out : List estimate) (t' : ℤ)
    (h : calculate_future_pos ang fuel p time = some (out, t')) : time ≤ t' := by
  unfold calculate_future_pos at h
  exact cfp_core_time_mono ang fuel _ _ _ _ _ _ _ _ h

theorem cfp_core_good (ang : ℤ → ℤ → ℤ → ℤ → ℚ)
    (hang : ∀ x1 y1 x2 y2 : ℤ, ¬(x2 = x1 ∧ y2 = y1) →
      AngleSpec x1 y1 x2 y2 (ang x1 y1 x2 y2))
    (fuel : ℕ) (x1 y1 x2 y2 : ℤ) (btd : ℚ) (time : ℤ)
    (out : List estimate) (t' : ℤ)
    (h : cfp_core ang fuel x1 y1 x2 y2 btd time = some (out, t')) :
    GoodEsts out := by
  unfold cfp_core at h
  dsimp only at h
  split_ifs at h with hdeg
  · have hout := (Prod.mk.injEq _ _ _ _ |>.mp (Option.some.inj h)).1
    rw [← hout]
    exact goodEsts_nil
  · split at h
    · exact absurd h Option.noConfusion
    · rename_i tf3 time2 heq
      have hout := (Prod.mk.injEq _ _ _ _ |>.mp (Option.some.inj h)).1
      rw [← hout]
      have hs := hang x1 y1 x2 y2 hdeg
      have hrange := displacement_range _ hs.1 hs.2.1
      have htf2 : GoodEsts
          (placeDanger (ang x1 y1 x2 y2) [] (closestOther (ang x1 y1 x2 y2)).1
            (closestOther (ang x1 y1 x2 y2)).2 x1 y1
            (displacement (ang x1 y1 x2 y2) (closestOther (ang x1 y1 x2 y2)).1
              (closestOther (ang x1 y1 x2 y2)).2) ++
            [⟨0, 0, -1⟩]) :=
        goodEsts_sentinel _
          (goodEsts_placeDanger _ _ _ _ _ _ _ (by linarith [hrange.1]) hrange.2
            goodEsts_nil)
      have htf3 : GoodEsts tf3 :=
        dangerRecurse_good ang hang fuel _ _ _ _ _ _ heq htf2
      exact goodEsts_placeDanger _ _ _ _ _ _ _ (by norm_num) (by norm_num)
        (goodEsts_sentinel _
          (goodEsts_placeDanger _ _ _ _ _ _ _ (by norm_num) (by norm_num)
            (goodEsts_sentinel _
              (goodEsts_placeDanger _ _ _ _ _ _ _ (by norm_num) (by norm_num)
                htf3))))

theorem cfp_good (ang : ℤ → ℤ → ℤ → ℤ → ℚ)
    (hang : ∀ x1 y1 x2 y2 : ℤ, ¬(x2 = x1 ∧ y2 = y1) →
      AngleSpec x1 y1 x2 y2 (ang x1 y1 x2 y2))
    (fuel : ℕ) (p : Plane) (time : ℤ) (out : List estimate) (t' : ℤ)
    (h : calculate_future_pos ang fuel p time = some (out, t')) :
    GoodEsts out := by
  unfold calculate_future_pos at h
  exact cfp_core_good ang hang fuel _ _ _ _ _ _ _ _ h

/-- `ratAngle` satisfies the bearing facts at every pair of distinct
points. -/
theorem ratAngle_spec (x1 y1 x2 y2 : ℤ) (h : ¬(x2 = x1 ∧ y2 = y1)) :
    AngleSpec x1 y1 x2 y2 (ratAngle x1 y1 x2 y2) := by
  unfold AngleSpec ratAngle
  dsimp only
  set xD : ℚ := |(x2:ℚ) - (x1:ℚ)| with hxD
  set yD : ℚ := |(y2:ℚ) - (y1:ℚ)| with hyD
  have hxD0 : 0 ≤ xD := abs_nonneg _
  have hyD0 : 0 ≤ yD := abs_nonneg _
  have hxD_eq : xD = 0 ↔ x2 = x1 := by
    rw [hxD, abs_eq_zero, sub_eq_zero, Int.cast_inj]
  have hyD_eq : yD = 0 ↔ y2 = y1 := by
    rw [hyD, abs_eq_zero, sub_eq_zero, Int.cast_inj]
  have hS : 0 < xD + yD := by
    rcases eq_or_lt_of_le hxD0 with hx0 | hx0
    · have hx2 : x2 = x1 := hxD_eq.mp hx0.symm
      have hy2 : ¬ y2 = y1 := fun hy => h ⟨hx2, hy⟩
      have hyne : yD ≠ 0 := fun h0 => hy2 (hyD_eq.mp h0)
      have : 0 < yD := lt_of_le_of_ne hyD0 (Ne.symm hyne)
      linarith
    · linarith
  set r : ℚ := 90 * xD / (xD + yD) with hr
  have hr0 : 0 ≤ r := div_nonneg (by linarith) (le_of_lt hS)
  have hr90 : r ≤ 90 := by
    rw [hr, div_le_iff hS]
    linarith
  have hrlt : 0 < yD → r < 90 := fun hy => by
    rw [hr, div_lt_iff hS]
    linarith
  have hrpos : 0 < xD → 0 < r := fun hx => div_pos (by linarith) hS
  have hrzero : xD = 0 → r = 0 := fun hx => by
    rw [hr, hx]
    simp
  have hr90eq : yD = 0 → 0 < xD → r = 90 := fun hy hx => by
    rw [hr, hy, add_zero, mul_div_assoc, div_self (ne_of_gt hx), mul_one]
  rcases lt_trichotomy x2 x1 with hx | hx | hx
  · have hxpos : 0 < xD :=
      lt_of_le_of_ne hxD0 (fun h0 => ne_of_lt hx (hxD_eq.mp h0.symm))
    rcases lt_trichotomy y2 y1 with hy | hy | hy
    · -- west, north : a = -r, 0 < r < 90
      have hypos : 0 < yD :=
        lt_of_le_of_ne hyD0 (fun h0 => ne_of_lt hy (hyD_eq.mp h0.symm))
      have h1 : 0 < r := hrpos hxpos
      have h2 : r < 90 := hrlt hypos
      rw [if_pos hy, if_pos hx]
      refine ⟨by linarith, by linarith, ?_, ?_, ?_, ?_⟩
      · exact iff_of_false (fun hc => by linarith [hc.1]) (by omega)
      · exact iff_of_true (by linarith) hx
      · rw [abs_neg, abs_of_nonneg hr0]
        exact iff_of_true h2 hy
      · rw [abs_neg, abs_of_nonneg hr0]
        exact iff_of_false (by linarith) (by omega)
    · -- due west : a = -(180 - r), r = 90
      have hy0 : yD = 0 := hyD_eq.mpr hy
      have hr' : r = 90 := hr90eq hy0 hxpos
      rw [if_neg (by omega : ¬ y2 < y1), if_pos hx, hr']
      refine ⟨by linarith, by linarith, ?_, ?_, ?_, ?_⟩
      · exact iff_of_false (fun hc => by linarith [hc.1]) (by omega)
      · exact iff_of_true (by linarith) hx
      · rw [abs_neg, abs_of_nonneg (by linarith : (0:ℚ) ≤ 180 - 90)]
        exact iff_of_false (by linarith) (by omega)
      · rw [abs_neg, abs_of_nonneg (by linarith : (0:ℚ) ≤ 180 - 90)]
        exact iff_of_false (by linarith) (by omega)
    · -- west, south : a = -(180 - r), 0 < r < 90
      have hypos : 0 < yD :=
        lt_of_le_of_ne hyD0 (fun h0 => (ne_of_lt hy).symm (hyD_eq.mp h0.symm))
      have h1 : 0 < r := hrpos hxpos
      have h2 : r < 90 := hrlt hypos
      rw [if_neg (by omega : ¬ y2 < y1), if_pos hx]
      refine ⟨by linarith, by linarith, ?_, ?_, ?_, ?_⟩
      · exact iff_of_false (fun hc => by linarith [hc.1]) (by omega)
      · exact iff_of_true (by linarith) hx
      · rw [abs_neg, abs_of_nonneg (by linarith : (0:ℚ) ≤ 180 - r)]
        exact iff_of_false (by linarith) (by omega)
      · rw [abs_neg, abs_of_nonneg (by linarith : (0:ℚ) ≤ 180 - r)]
        exact iff_of_true (by linarith) hy
  · -- x2 = x1
    have hx0 : xD = 0 := hxD_eq.mpr hx
    have hr' : r = 0 := hrzero hx0
    rcases lt_trichotomy y2 y1 with hy | hy | hy
    · -- due north : a = 0
      rw [if_pos hy, if_neg (by omega : ¬ x2 < x1), hr']
      refine ⟨by norm_num, by norm_num, ?_, ?_, ?_, ?_⟩
      · exact iff_of_false (fun hc => by linarith [hc.1]) (by omega)
      · exact iff_of_false (by norm_num) (by omega)
      · rw [abs_zero]
        exact iff_of_true (by norm_num) hy
      · rw [abs_zero]
        exact iff_of_false (by norm_num) (by omega)
    · exact absurd ⟨hx, hy⟩ h
    · -- due south : a = 180
      rw [if_neg (by omega : ¬ y2 < y1), if_neg (by omega : ¬ x2 < x1), hr']
      refine ⟨by norm_num, by norm_num, ?_, ?_, ?_, ?_⟩
      · exact iff_of_false (fun hc => by linarith [hc.2]) (by omega)
      · exact iff_of_false (by norm_num) (by omega)
      · rw [abs_of_nonneg (by norm_num : (0:ℚ) ≤ 180 - 0)]
        exact iff_of_false (by norm_num) (by omega)
      · rw [abs_of_nonneg (by norm_num : (0:ℚ) ≤ 180 - 0)]
        exact iff_of_true (by norm_num) hy
  · -- x1 < x2
    have hxpos : 0 < xD :=
      lt_of_le_of_ne hxD0 (fun h0 => (ne_of_lt hx).symm (hxD_eq.mp h0.symm))
    rcases lt_trichotomy y2 y1 with hy | hy | hy
    · -- east, north : a = r, 0 < r < 90
      have hypos : 0 < yD :=
        lt_of_le_of_ne hyD0 (fun h0 => ne_of_lt hy (hyD_eq.mp h0.symm))
      have h1 : 0 < r := hrpos hxpos
      have h2 : r < 90 := hrlt hypos
      rw [if_pos hy, if_neg (by omega : ¬ x2 < x1)]
      refine ⟨by linarith, by linarith, ?_, ?_, ?_, ?_⟩
      · exact iff_of_true ⟨h1, by linarith⟩ hx
      · exact iff_of_false (by linarith) (by omega)
      · rw [abs_of_nonneg hr0]
        exact iff_of_true h2 hy
      · rw [abs_of_nonneg hr0]
        exact iff_of_false (by linarith) (by omega)
    · -- due east : a = 180 - r, r = 90
      have hy0 : yD = 0 := hyD_eq.mpr hy
      have hr' : r = 90 := hr90eq hy0 hxpos
      rw [if_neg (by omega : ¬ y2 < y1), if_neg (by omega : ¬ x2 < x1), hr']
      refine ⟨by norm_num, by norm_num, ?_, ?_, ?_, ?_⟩
      · exact iff_of_true ⟨by norm_num, by norm_num⟩ hx
      · exact iff_of_false (by norm_num) (by omega)
      · rw [abs_of_nonneg (by norm_num : (0:ℚ) ≤ 180 - 90)]
        exact iff_of_false (by norm_num) (by omega)
      · rw [abs_of_nonneg (by norm_num : (0:ℚ) ≤ 180 - 90)]
        exact iff_of_false (by norm_num) (by omega)
    · -- east, south : a = 180 - r, 0 < r < 90
      have hypos : 0 < yD :=
        lt_of_le_of_ne hyD0 (fun h0 => (ne_of_lt hy).symm (hyD_eq.mp h0.symm))
      have h1 : 0 < r := hrpos hxpos
      have h2 : r < 90 := hrlt hypos
      rw [if_neg (by omega : ¬ y2 < y1), if_neg (by omega : ¬ x2 < x1)]
      refine ⟨by linarith, by linarith, ?_, ?_, ?_, ?_⟩
      · exact iff_of_true ⟨by linarith, by linarith⟩ hx
      · exact iff_of_false (by linarith) (by omega)
      · rw [abs_of_nonneg (by linarith : (0:ℚ) ≤ 180 - r)]
        exact iff_of_false (by linarith) (by omega)
      · rw [abs_of_nonneg (by linarith : (0:ℚ) ≤ 180 - r)]
        exact iff_of_true (by linarith) hy

theorem get_width_add (m : map) (x y : ℕ) (v : ℚ) :
    get_width_in_squares (add_danger_at m x y v) = get_width_in_squares m := by
  unfold get_width_in_squares add_danger_at
  exact length_modN _ _ _

theorem get_height_add (m : map) (x y : ℕ) (v : ℚ) :
    get_height_in_squares (add_danger_at m x y v) = get_height_in_squares m := by
  unfold get_height_in_squares add_danger_at
  dsimp only
  rw [getD_modN]
  split_ifs with hcase
  · exact length_modN _ _ _
  · rfl

theorem get_add_danger_at (m : map) (x y : ℕ) (v : ℚ) (i j : ℕ) :
    get_danger_at (add_danger_at m x y v) i j =
      if x = i ∧ y = j ∧ i < m.the_map.length ∧ j < (m.the_map.getD i []).length
      then get_danger_at m i j + v else get_danger_at m i j := by
  unfold get_danger_at add_danger_at
  dsimp only
  rw [getD_modN]
  by_cases hx : x = i ∧ i < m.the_map.length
  · rw [if_pos hx, getD_modN]
    by_cases hy : y = j ∧ j < (m.the_map.getD i []).length
    · rw [if_pos hy, if_pos ⟨hx.1, hy.1, hx.2, hy.2⟩]
    · rw [if_neg hy, if_neg (by tauto)]
  · rw [if_neg hx, if_neg (by tauto)]

theorem get_set_danger_at (m : map) (x y : ℕ) (v : ℚ) (i j : ℕ) :
    get_danger_at (set_danger_at m x y v) i j =
      if x = i ∧ y = j ∧ i < m.the_map.length ∧ j < (m.the_map.getD i []).length
      then v else get_danger_at m i j := by
  unfold get_danger_at set_danger_at
  dsimp only
  rw [getD_modN]
  by_cases hx : x = i ∧ i < m.the_map.length
  · rw [if_pos hx, getD_modN]
    by_cases hy : y = j ∧ j < (m.the_map.getD i []).length
    · rw [if_pos hy, if_pos ⟨hx.1, hy.1, hx.2, hy.2⟩]
    · rw [if_neg hy, if_neg (by tauto)]
  · rw [if_neg hx, if_neg (by tauto)]

theorem modN_forall {α : Type} (P : α → Prop) (l : List α) (k : ℕ) (f : α → α)
    (hl : ∀ c ∈ l, P c) (hf : ∀ c ∈ l, P (f c)) : ∀ c ∈ modN l k f, P c := by
  induction l generalizing k with
  | nil => intro c hc; exact absurd hc (List.not_mem_nil c)
  | cons a t ih =>
    cases k with
    | zero =>
      intro c hc
      rcases List.mem_cons.mp hc with hceq | hc
      · rw [hceq]; exact hf a (List.mem_cons_self a t)
      · exact hl c (List.mem_cons_of_mem a hc)
    | succ n =>
      intro c hc
      rcases List.mem_cons.mp hc with hceq | hc
      · rw [hceq]; exact hl a (List.mem_cons_self a t)
      · exact ih n (fun c hc => hl c (List.mem_cons_of_mem a hc))
          (fun c hc => hf c (List.mem_cons_of_mem a hc)) c hc

theorem uniform_add (m : map) (x y : ℕ) (v : ℚ) (hU : UniformMap m) :
    UniformMap (add_danger_at m x y v) := by
  have hmain : ∀ c ∈ modN m.the_map x (fun col => modN col y (fun d => d + v)),
      c.length = get_height_in_squares m :=
    modN_forall (fun c => c.length = get_height_in_squares m) m.the_map x _
      (fun c hc => hU c hc)
      (fun c hc => by
        show (modN c y (fun d => d + v)).length = get_height_in_squares m
        rw [length_modN]
        exact hU c hc)
  intro c hc
  rw [get_height_add]
  exact hmain c hc

theorem get_width_safely (m : map) (p q : ℤ) (v : ℚ) :
    get_width_in_squares (safely_add_danger_at m p q v) =
      get_width_in_squares m := by
  unfold safely_add_danger_at
  split_ifs
  · exact get_width_add _ _ _ _
  · rfl

theorem get_height_safely (m : map) (p q : ℤ) (v : ℚ) :
    get_height_in_squares (safely_add_danger_at m p q v) =
      get_height_in_squares m := by
  unfold safely_add_danger_at
  split_ifs
  · exact get_height_add _ _ _ _
  · rfl

theorem uniform_safely (m : map) (p q : ℤ) (v : ℚ) (hU : UniformMap m) :
    UniformMap (safely_add_danger_at m p q v) := by
  unfold safely_add_danger_at
  split_ifs
  · exact uniform_add _ _ _ _ hU
  · exact hU

theorem get_safely_add (m : map) (hU : UniformMap m) (p q : ℤ) (v : ℚ)
    (i j : ℕ) (hi : i < get_width_in_squares m)
    (hj : j < get_height_in_squares m) :
    get_danger_at (safely_add_danger_at m p q v) i j =
      if p = (i : ℤ) ∧ q = (j : ℤ) then get_danger_at m i j + v
      else get_danger_at m i j := by
  unfold safely_add_danger_at
  have hcol : (m.the_map.getD i []).length = get_height_in_squares m := by
    apply hU
    have hi' : i < m.the_map.length := hi
    rw [List.getD_eq_getElem _ _ hi']
    exact List.getElem_mem hi'
  by_cases hb : 0 ≤ p ∧ p < (get_width_in_squares m : ℤ) ∧
      0 ≤ q ∧ q < (get_height_in_squares m : ℤ)
  · rw [if_pos hb, get_add_danger_at]
    by_cases hpq : p = (i : ℤ) ∧ q = (j : ℤ)
    · rw [if_pos hpq, if_pos ⟨by omega, by omega, hi, by rw [hcol]; exact hj⟩]
    · rw [if_neg hpq, if_neg (by
        intro hcon
        obtain ⟨h1, h2, _, _⟩ := hcon
        exact hpq ⟨by omega, by omega⟩)]
  · rw [if_neg hb, if_neg (by
      intro hcon
      obtain ⟨hp, hq⟩ := hcon
      exact hb ⟨by omega, by omega, by omega, by omega⟩)]

theorem get_safely_add_list (ps : List (ℤ × ℤ)) :
    ∀ (m : map), UniformMap m → ps.Nodup → ∀ (v : ℚ) (i j : ℕ),
      i < get_width_in_squares m → j < get_height_in_squares m →
      get_danger_at (safely_add_list m ps v) i j =
        get_danger_at m i j +
          (if ((i : ℤ), (j : ℤ)) ∈ ps then v else 0) := by
  induction ps with
  | nil =>
    intro m hU _ v i j hi hj
    simp [safely_add_list]
  | cons pq rest ih =>
    intro m hU hnd v i j hi hj
    have hstep : safely_add_list m (pq :: rest) v =
        safely_add_list (safely_add_danger_at m pq.1 pq.2 v) rest v := rfl
    rw [hstep, ih (safely_add_danger_at m pq.1 pq.2 v)
      (uniform_safely _ _ _ _ hU) (List.Nodup.of_cons hnd) v i j
      (by rw [get_width_safely]; exact hi)
      (by rw [get_height_safely]; exact hj),
      get_safely_add m hU pq.1 pq.2 v i j hi hj]
    by_cases hfst : pq.1 = (i : ℤ) ∧ pq.2 = (j : ℤ)
    · have hpq : pq = ((i : ℤ), (j : ℤ)) := Prod.ext hfst.1 hfst.2
      have hnotin : ((i : ℤ), (j : ℤ)) ∉ rest := by
        rw [← hpq]
        exact (List.nodup_cons.mp hnd).1
      rw [if_pos hfst, if_neg hnotin,
        if_pos (by rw [hpq]; exact List.mem_cons_self _ _)]
      ring
    · have hpq : pq ≠ ((i : ℤ), (j : ℤ)) := fun hc => hfst (by rw [hc]; exact ⟨rfl, rfl⟩)
      rw [if_neg hfst]
      by_cases hmem : ((i : ℤ), (j : ℤ)) ∈ rest
      · rw [if_pos hmem, if_pos (List.mem_cons_of_mem _ hmem)]
      · rw [if_neg hmem, if_neg (by
          intro hc
          rcases List.mem_cons.mp hc with hc | hc
          · exact hpq hc.symm
          · exact hmem hc)]

theorem getD_replicate {α : Type} (n : ℕ) (a : α) (k : ℕ) (d : α) :
    (List.replicate n a).getD k d = if k < n then a else d := by
  induction n generalizing k with
  | zero => simp [List.replicate]
  | succ n ih =>
    cases k with
    | zero => simp [List.replicate]
    | succ k =>
      rw [List.replicate_succ, List.getD_cons_succ, ih]
      by_cases h : k < n
      · rw [if_pos h, if_pos (by omega)]
      · rw [if_neg h, if_neg (by omega)]

theorem get_blank (w h : ℕ) (i j : ℕ) : get_danger_at (blankMap w h) i j = 0 := by
  unfold get_danger_at blankMap
  dsimp only
  rw [getD_replicate]
  split_ifs
  · rw [getD_replicate]
    split_ifs <;> rfl
  · rfl

theorem uniform_blank (w h : ℕ) : UniformMap (blankMap w h) := by
  intro c hc
  have hc' : c = List.replicate h 0 := List.eq_of_mem_replicate hc
  have hw : 0 < w := by
    rcases Nat.eq_zero_or_pos w with hw0 | hw0
    · subst hw0
      exact absurd hc (List.not_mem_nil c)
    · exact hw0
  rw [hc']
  unfold get_height_in_squares blankMap
  dsimp only
  rw [getD_replicate, if_pos hw]

theorem adjust_danger_nonneg (pd : ℚ) (hpd : 0 ≤ pd) (t : ℤ) :
    0 ≤ adjust_danger pd t := by
  unfold adjust_danger danger_ratings
  rw [getD_replicate]
  split_ifs
  · exact hpd
  · exact le_refl 0

theorem nonnegMap_add (m : map) (x y : ℕ) (v : ℚ) (hv : 0 ≤ v)
    (hm : NonnegMap m) : NonnegMap (add_danger_at m x y v) := by
  intro i j
  rw [get_add_danger_at]
  split_ifs with h
  · have := hm i j
    linarith
  · exact hm i j

theorem nonnegMap_safely (m : map) (p q : ℤ) (v : ℚ) (hv : 0 ≤ v)
    (hm : NonnegMap m) : NonnegMap (safely_add_danger_at m p q v) := by
  unfold safely_add_danger_at
  split_ifs
  · exact nonnegMap_add _ _ _ _ hv hm
  · exact hm

theorem nonnegDS_modN (ds : List map) (k : ℕ) (f : map → map)
    (hds : NonnegDS ds) (hf : ∀ m, NonnegMap m → NonnegMap (f m)) :
    NonnegDS (modN ds k f) := by
  intro i x y
  rw [getD_modN]
  split_ifs with h
  · exact hf _ (fun a b => hds i a b) x y
  · exact hds i x y

theorem nonnegDS_set_danger_field (b uw : ℚ) (x y time : ℕ) (ds : List map)
    (huw : 0 ≤ uw) (hds : NonnegDS ds) :
    NonnegDS (set_danger_field b uw x y time ds) := by
  unfold set_danger_field
  dsimp only
  have hd : 0 ≤ uw * field_weight :=
    mul_nonneg huw (by norm_num [field_weight])
  refine nonnegDS_modN _ _ _ hds ?_
  intro m hm
  exact nonnegMap_safely _ _ _ _ hd (nonnegMap_safely _ _ _ _ hd
    (nonnegMap_safely _ _ _ _ hd (nonnegMap_safely _ _ _ _ hd
      (nonnegMap_safely _ _ _ _ hd (nonnegMap_safely _ _ _ _ hd
        (nonnegMap_safely _ _ _ _ hd (nonnegMap_safely _ _ _ _ hd hm)))))))

theorem fill_walk_nonneg (b pd : ℚ) (hpd : 0 ≤ pd) :
    ∀ (ests : List estimate) (ds : List map) (t : ℤ),
      GoodEsts ests → NonnegDS ds → NonnegDS (fill_walk b pd ests ds t).1 := by
  intro ests
  induction ests with
  | nil =>
    intro ds t _ hds
    exact hds
  | cons est rest ih =>
    intro ds t hgood hds
    have hrest : GoodEsts rest := fun e he => hgood e (List.mem_cons_of_mem _ he)
    rw [fill_walk]
    split_ifs with h1 h2
    · dsimp only
      refine ih _ t hrest ?_
      have hed : 0 ≤ est.danger := by
        rcases hgood est (List.mem_cons_self _ _) with hg | hg
        · exact hg
        · exfalso
          have := h2.2.2.2.2
          rw [hg] at this
          norm_num [EPSILON] at this
      have hd : 0 ≤ est.danger * adjust_danger pd t :=
        mul_nonneg hed (adjust_danger_nonneg pd hpd t)
      refine nonnegDS_set_danger_field _ _ _ _ _ _ hd ?_
      exact nonnegDS_modN _ _ _ hds (fun m hm => nonnegMap_add _ _ _ _ hd hm)
    · exact ih _ (t + 1) hrest hds
    · exact ih _ t hrest hds

theorem fill_walk_preserves_low (b pd : ℚ) :
    ∀ (ests : List estimate) (ds : List map) (t : ℤ), 1 ≤ t →
      ∀ i, i < look_behind →
        ((fill_walk b pd ests ds t).1).getD i default = ds.getD i default := by
  intro ests
  induction ests with
  | nil =>
    intro ds t _ i _
    rfl
  | cons est rest ih =>
    intro ds t ht i hi
    have hlb : (look_behind : ℤ) = 2 := rfl
    have hlb' : look_behind = 2 := rfl
    rw [fill_walk]
    split_ifs with h1 h2
    · dsimp only
      rw [ih _ t ht i hi]
      have hidx : (t + (look_behind : ℤ)).toNat ≠ i := by
        rw [hlb]
        omega
      unfold set_danger_field
      dsimp only
      rw [getD_modN, if_neg (fun hc => hidx hc.1),
        getD_modN, if_neg (fun hc => hidx hc.1)]
    · exact ih _ (t + 1) (by omega) i hi
    · exact ih _ t ht i hi

theorem fill_one_plane_nonneg (ang : ℤ → ℤ → ℤ → ℤ → ℚ)
    (hang : ∀ x1 y1 x2 y2 : ℤ, ¬(x2 = x1 ∧ y2 = y1) →
      AngleSpec x1 y1 x2 y2 (ang x1 y1 x2 y2))
    (fuel : ℕ) (pd : ℚ) (hpd : 0 ≤ pd) (p : Plane) (ds ds' : List map)
    (h : fill_one_plane ang fuel pd p ds = some ds') (hds : NonnegDS ds) :
    NonnegDS ds' := by
  unfold fill_one_plane at h
  dsimp only at h
  split at h
  · exact absurd h Option.noConfusion
  · rename_i est_to_avoid dummy heq1
    split at h
    · exact absurd h Option.noConfusion
    · rename_i est_to_goal t2 heq2
      have hds0 : NonnegDS (modN ds (0 + look_behind)
          (fun m => add_danger_at m p.loc.1.toNat p.loc.2.toNat pd)) :=
        nonnegDS_modN _ _ _ hds (fun m hm => nonnegMap_add _ _ _ _ hpd hm)
      have hg1 : GoodEsts est_to_avoid := cfp_good ang hang fuel p 0 _ _ heq1
      have hg2 : GoodEsts est_to_goal := cfp_good ang hang fuel p dummy _ _ heq2
      have hW1 := fill_walk_nonneg p.bearing pd hpd est_to_avoid _ 1 hg1 hds0
      have hW2 := fill_walk_nonneg p.bearing pd hpd est_to_goal _ (dummy + 1) hg2 hW1
      have hout : _ = ds' := Option.some.inj h
      rw [← hout]
      exact hW2

theorem fill_one_plane_low (ang : ℤ → ℤ → ℤ → ℤ → ℚ) (fuel : ℕ) (pd : ℚ)
    (p : Plane) (ds ds' : List map)
    (h : fill_one_plane ang fuel pd p ds = some ds') :
    ∀ i, i < look_behind → ds'.getD i default = ds.getD i default := by
  unfold fill_one_plane at h
  dsimp only at h
  split at h
  · exact absurd h Option.noConfusion
  · rename_i est_to_avoid dummy heq1
    split at h
    · exact absurd h Option.noConfusion
    · rename_i est_to_goal t2 heq2
      intro i hi
      have hd0 : (0:ℤ) ≤ dummy := cfp_time_mono ang fuel p 0 _ _ heq1
      have hout : _ = ds' := Option.some.inj h
      rw [← hout,
        fill_walk_preserves_low _ _ _ _ _ (by omega) i hi,
        fill_walk_preserves_low _ _ _ _ _ (by omega) i hi,
        getD_modN, if_neg (by
          intro hc
          have hlb : look_behind = 2 := rfl
          omega)]

theorem fill_danger_space_nonneg (ang : ℤ → ℤ → ℤ → ℤ → ℚ)
    (hang : ∀ x1 y1 x2 y2 : ℤ, ¬(x2 = x1 ∧ y2 = y1) →
      AngleSpec x1 y1 x2 y2 (ang x1 y1 x2 y2))
    (fuel : ℕ) (pd : ℚ) (hpd : 0 ≤ pd) (pid : ℕ) :
    ∀ (planes : List Plane) (ds ds' : List map),
      fill_danger_space ang fuel pd pid planes ds = some ds' →
      NonnegDS ds → NonnegDS ds' := by
  intro planes
  induction planes with
  | nil =>
    intro ds ds' h hds
    have : ds = ds' := Option.some.inj h
    exact this ▸ hds
  | cons p rest ih =>
    intro ds ds' h hds
    rw [fill_danger_space] at h
    split_ifs at h with hid
    · split at h
      · exact absurd h Option.noConfusion
      · rename_i ds1 heq1
        exact ih ds1 ds' h
          (fill_one_plane_nonneg ang hang fuel pd hpd p ds ds1 heq1 hds)
    · exact ih ds ds' h hds

theorem fill_danger_space_low (ang : ℤ → ℤ → ℤ → ℤ → ℚ) (fuel : ℕ) (pd : ℚ)
    (pid : ℕ) :
    ∀ (planes : List Plane) (ds ds' : List map),
      fill_danger_space ang fuel pd pid planes ds = some ds' →
      ∀ i, i < look_behind → ds'.getD i default = ds.getD i default := by
  intro planes
  induction planes with
  | nil =>
    intro ds ds' h i _
    have : ds = ds' := Option.some.inj h
    rw [← this]
  | cons p rest ih =>
    intro ds ds' h i hi
    rw [fill_danger_space] at h
    split_ifs at h with hid
    · split at h
      · exact absurd h Option.noConfusion
      · rename_i ds1 heq1
        rw [ih ds1 ds' h i hi, fill_one_plane_low ang fuel pd p ds ds1 heq1 i hi]
    · exact ih ds ds' h i hi

/-- C1: in the field-fill walk, an estimate whose coordinates fall outside
the grid (here `x = -1` on a 3-by-3 grid) is not written — but it falls
into the same `else` branch as the sentinels and therefore INCREMENTS the
running time counter `t` (from 1 to 2), contradicting the claim that only
sentinel estimates advance `t`.  The source's own comment labels that
branch "this estimate is only a timestamp marker". -/
theorem c1_out_of_bounds_estimate_advances_t :
    fill_walk 0 1 [⟨-1, 0, 1/2⟩]
      (List.replicate (look_ahead + look_behind + 1) (map_ctor 3 3 1)) 1 =
    (List.replicate (look_ahead + look_behind + 1) (map_ctor 3 3 1), 2) := by
  have hmc : map_ctor 3 3 1 = blankMap 3 3 := by
    unfold map_ctor
    norm_num
    rfl
  rw [hmc]
  decide

/-- C2: for every non-degenerate projection step (any bearing in
`[-180, 180]`), the two estimates pushed by `placeDanger` carry the
majority fraction `f` and the remainder `1 - f`, which sum to exactly 1
before the 0.4 ceiling clamp, and after clamping both emitted risks lie in
`[0, 0.4]`. -/
theorem c2_mass_split_invariant (a : ℚ) (hlo : -180 ≤ a) (hhi : a ≤ 180)
    (e : List estimate) (x y : ℤ) :
    ∃ c1 c2 : estimate, ∃ f : ℚ,
      f = displacement a (closestOther a).1 (closestOther a).2 ∧
      placeDanger a e (closestOther a).1 (closestOther a).2 x y f = e ++ [c1, c2] ∧
      f + (1 - f) = 1 ∧
      c1.danger = (if f ≥ 2/5 then 2/5 else f) ∧
      c2.danger = (if 1 - f ≥ 2/5 then 2/5 else 1 - f) ∧
      0 ≤ c1.danger ∧ c1.danger ≤ 2/5 ∧ 0 ≤ c2.danger ∧ c2.danger ≤ 2/5 := by
  obtain ⟨c1, c2, heq, h1, h2⟩ := placeDanger_shape a e (closestOther a).1
    (closestOther a).2 x y
    (displacement a (closestOther a).1 (closestOther a).2)
  have hr := displacement_range a hlo hhi
  refine ⟨c1, c2, _, rfl, heq, by ring, h1, h2, ?_, ?_, ?_, ?_⟩
  · rw [h1]
    split_ifs with hc
    · norm_num
    · linarith [hr.1]
  · rw [h1]
    split_ifs with hc
    · exact le_refl _
    · linarith
  · rw [h2]
    split_ifs with hc
    · norm_num
    · linarith [hr.2]
  · rw [h2]
    split_ifs with hc
    · exact le_refl _
    · linarith

/-- C2 witness at the concrete bearing 30 degrees. -/
theorem c2_mass_split_witness :
    ∃ c1 c2 : estimate, ∃ f : ℚ,
      f = displacement 30 (closestOther 30).1 (closestOther 30).2 ∧
      placeDanger 30 [] (closestOther 30).1 (closestOther 30).2 5 5 f
        = [] ++ [c1, c2] ∧
      f + (1 - f) = 1 ∧
      c1.danger = (if f ≥ 2/5 then 2/5 else f) ∧
      c2.danger = (if 1 - f ≥ 2/5 then 2/5 else 1 - f) ∧
      0 ≤ c1.danger ∧ c1.danger ≤ 2/5 ∧ 0 ≤ c2.danger ∧ c2.danger ≤ 2/5 :=
  c2_mass_split_invariant 30 (by norm_num) (by norm_num) [] 5 5

/-- C3: for any angle oracle satisfying the facts guaranteed by the
source's bearing formula, `dangerRecurse` terminates from every starting
point toward every destination (fuel one more than the Manhattan distance
suffices), returning immediately with nothing emitted exactly when the
current point coincides with the destination (zero remaining x and y
distance), and strictly advancing the elapsed-time counter otherwise. -/
theorem c3_dangerRecurse_terminates (ang : ℤ → ℤ → ℤ → ℤ → ℚ)
    (hang : ∀ x1 y1 x2 y2 : ℤ, ¬(x2 = x1 ∧ y2 = y1) →
      AngleSpec x1 y1 x2 y2 (ang x1 y1 x2 y2))
    (e : estimate) (dest : ℤ × ℤ) (theFuture : List estimate) (time : ℤ) :
    ∃ out t',
      dangerRecurse ang (manhattan e.x e.y dest.1 dest.2 + 1) e dest theFuture time
        = some (out, t') ∧
      ((dest.1 = e.x ∧ dest.2 = e.y) → out = theFuture ∧ t' = time) ∧
      (¬(dest.1 = e.x ∧ dest.2 = e.y) → time < t') := by
  obtain ⟨out, t', h1, _, h3, h4⟩ :=
    dangerRecurse_total ang hang (manhattan e.x e.y dest.1 dest.2) e dest
      theFuture time (le_refl _)
  exact ⟨out, t', h1, h3, h4⟩

/-- C3 witness with the concrete oracle `ratAngle`, from `(0,0)` toward
`(2,1)`. -/
theorem c3_dangerRecurse_terminates_witness :
    ∃ out t',
      dangerRecurse ratAngle (manhattan 0 0 2 1 + 1) ⟨0, 0, 0⟩ (2, 1) [] 0
        = some (out, t') ∧
      (((2:ℤ) = 0 ∧ (1:ℤ) = 0) → out = [] ∧ t' = 0) ∧
      (¬((2:ℤ) = 0 ∧ (1:ℤ) = 0) → 0 < t') :=
  c3_dangerRecurse_terminates ratAngle ratAngle_spec ⟨0, 0, 0⟩ (2, 1) [] 0

/-- C4 counterexample, at the concrete input current point `(5,5)`,
destination `(8,0)`.  There the source computes
`bearing = RADtoDEGREES * asin(xDistance / distance)` (the `y2 < y1`
branch, positive since `x2 > x1`) with `xDistance = 3` and
`distance = sqrt(34)`, i.e. `deg(asin(3/sqrt 34)) ≈ 30.9638°`, which lies
strictly inside `(28°, 31°)` because `sin 28° ≈ 0.4695 < 3/sqrt 34 ≈
0.51450 < 0.51504 ≈ sin 31°`.  The theorem covers EVERY bearing value `a`
in that bracket (each consistent with all the sign/quadrant facts
`AngleSpec` records for this input), so in particular the program's: the
step emits the majority cell `(6,4)` with risk clamped to `0.4` and the
remainder cell `(5,4)` with risk `1 - a/45 ∈ (0.3, 0.4)`; since that risk
exceeds `0.3`, the `theFuture[1].danger > .3` branch of
`calculate_future_pos` selects the SECOND estimate — the strictly
lower-risk cell — as the next current point, refuting the claim that the
higher-risk cell is always chosen.  The final conjuncts note that the
bracket indeed contains `30.9638`. -/
theorem c4_initial_pick_lower_risk :
    (∀ a : ℚ, 28 < a → a < 31 →
      AngleSpec 5 5 8 0 a ∧
      placeDanger a [] (closestOther a).1 (closestOther a).2 5 5
        (displacement a (closestOther a).1 (closestOther a).2)
        = [⟨6, 4, 2/5⟩, ⟨5, 4, 1 - a / 45⟩] ∧
      cfp_initial_pick [⟨6, 4, 2/5⟩, ⟨5, 4, 1 - a / 45⟩, ⟨0, 0, -1⟩]
        = ⟨5, 4, 1 - a / 45⟩ ∧
      1 - a / 45 < 2/5 ∧
      1 - a / 45 > 3/10) ∧
    (28 : ℚ) < 309638 / 10000 ∧ (309638 : ℚ) / 10000 < 31 := by
  refine ⟨?_, by norm_num, by norm_num⟩
  intro a h1 h2
  have ha0 : (0 : ℚ) < a := by linarith
  have habs : |a| = a := abs_of_pos ha0
  have hn : neighoboringAngles a = (0, 45) := by
    unfold neighoboringAngles
    rw [if_pos (by linarith : a > 0), if_pos (by linarith : a < 45)]
  have hco : closestOther a = (45, 0) := by
    unfold closestOther
    rw [hn]
    dsimp only
    rw [if_pos (by
      rw [sub_zero, habs, abs_of_neg (by linarith : a - 45 < (0 : ℚ))]
      linarith)]
  have hd : displacement a 45 0 = a / 45 := by
    unfold displacement
    rw [if_neg (fun hc => by
        have h45 : |(45 : ℚ)| = 45 := by norm_num
        rw [habs, h45] at hc
        exact absurd hc.1 (by linarith)),
      if_pos (by norm_num : (45 : ℚ) ≠ 0)]
  have hclamp1 : a / 45 ≥ 2/5 := by
    rw [ge_iff_le, le_div_iff (by norm_num : (0 : ℚ) < 45)]
    linarith
  have hclamp2 : ¬(1 - a / 45 ≥ 2/5) := by
    intro hc
    have hle : a / 45 ≤ 3/5 := by linarith
    rw [div_le_iff (by norm_num : (0 : ℚ) < 45)] at hle
    linarith
  have hlt : 1 - a / 45 < 2/5 := by
    have hgt : (3 : ℚ)/5 < a / 45 := by
      rw [lt_div_iff (by norm_num : (0 : ℚ) < 45)]
      linarith
    linarith
  have hgt3 : 1 - a / 45 > 3/10 := by
    have hlt2 : a / 45 < 7/10 := by
      rw [div_lt_iff (by norm_num : (0 : ℚ) < 45)]
      linarith
    linarith
  refine ⟨⟨by linarith, by linarith,
      iff_of_true ⟨by linarith, by linarith⟩ (by norm_num),
      iff_of_false (by linarith) (by norm_num),
      iff_of_true (by rw [habs]; linarith) (by norm_num),
      iff_of_false (by rw [habs]; linarith) (by norm_num)⟩, ?_, ?_, hlt, hgt3⟩
  · rw [hco]
    dsimp only
    rw [hd, pd_eval_2 a (by linarith) [] 5 5 (a / 45), if_pos hclamp1,
      if_neg hclamp2]
    norm_num
  · unfold cfp_initial_pick
    simp only [List.getD_cons_succ, List.getD_cons_zero]
    rw [if_pos hgt3]

/-- C4 (amended): in the recursive steps (`dangerRecurse`), the new
current point is the first-emitted (majority-direction) estimate, whose
risk is at least the other newly emitted estimate's risk, with a sentinel
emitted between each second's cluster and the time counter advanced; at
the initial step in `calculate_future_pos` the code instead picks the
second-emitted cell whenever its clamped risk exceeds 0.3, which can be
the strictly lower-risk cell (see the counterexample). -/
theorem c4_recursive_step_picks_majority (ang : ℤ → ℤ → ℤ → ℤ → ℚ)
    (e : estimate) (x2 y2 : ℤ) (fuel : ℕ) (theFuture : List estimate)
    (time : ℤ) (hne : ¬(x2 = e.x ∧ y2 = e.y))
    (hs : AngleSpec e.x e.y x2 y2 (ang e.x e.y x2 y2)) :
    ∃ c1 c2 : estimate,
      dangerRecurse ang (fuel + 1) e (x2, y2) theFuture time
        = dangerRecurse ang fuel c1 (x2, y2)
            (theFuture ++ [c1, c2, ⟨0, 0, -1⟩]) (time + 1) ∧
      c2.danger ≤ c1.danger := by
  obtain ⟨c1, c2, hstep, hd1, _, hd2b, _⟩ :=
    dr_step ang fuel e (x2, y2) theFuture time hne hs
  exact ⟨c1, c2, hstep, by rw [hd1]; exact hd2b⟩

/-- C4 witness at the concrete step from `(0,0)` toward `(3,4)`. -/
theorem c4_recursive_step_witness :
    ∃ c1 c2 : estimate,
      dangerRecurse ratAngle 1 ⟨0, 0, 0⟩ (3, 4) [] 0
        = dangerRecurse ratAngle 0 c1 (3, 4) ([] ++ [c1, c2, ⟨0, 0, -1⟩]) (0 + 1) ∧
      c2.danger ≤ c1.danger :=
  c4_recursive_step_picks_majority ratAngle ⟨0, 0, 0⟩ 3 4 0 [] 0 (by decide)
    (ratAngle_spec 0 0 3 4 (by decide))

theorem set_danger_field_as_fold (b uw : ℚ) (x y time : ℕ) (ds : List map) :
    set_danger_field b uw x y time ds =
      modN ds time (fun m => safely_add_list m
        [((x : ℤ) - 1, (y : ℤ) + 1), ((x : ℤ) - 1, (y : ℤ)),
         ((x : ℤ) - 1, (y : ℤ) - 1), ((x : ℤ), (y : ℤ) - 1),
         ((x : ℤ) + 1, (y : ℤ) - 1), ((x : ℤ) + 1, (y : ℤ)),
         ((x : ℤ) + 1, (y : ℤ) + 1), ((x : ℤ), (y : ℤ) + 1)]
        (uw * field_weight)) := by
  simp only [set_danger_field, safely_add_list, List.foldl_cons, List.foldl_nil]

/-- C5: `set_danger_field` ignores the bearing entirely (the
bearing-dependent switch is commented out): the result is identical for
any two bearings, the weighted danger `unweighted_danger * 0.7` is added
to exactly the eight neighboring cells of `(x, y)` (and nothing is added
elsewhere in the slice, in-bounds additions guarded by the safe accessor),
and no other time slice is modified. -/
theorem c5_set_danger_field_all_eight (b b' uw : ℚ) (x y time : ℕ)
    (ds : List map) (i j : ℕ) (ht : time < ds.length)
    (hU : UniformMap (ds.getD time default))
    (hi : i < get_width_in_squares (ds.getD time default))
    (hj : j < get_height_in_squares (ds.getD time default)) :
    set_danger_field b uw x y time ds = set_danger_field b' uw x y time ds ∧
    get_danger_at ((set_danger_field b uw x y time ds).getD time default) i j =
      get_danger_at (ds.getD time default) i j +
        (if neighbor8 x y i j then uw * field_weight else 0) ∧
    (∀ t', t' ≠ time →
      (set_danger_field b uw x y time ds).getD t' default = ds.getD t' default) := by
  refine ⟨rfl, ?_, ?_⟩
  · have hnd : ([((x : ℤ) - 1, (y : ℤ) + 1), ((x : ℤ) - 1, (y : ℤ)),
        ((x : ℤ) - 1, (y : ℤ) - 1), ((x : ℤ), (y : ℤ) - 1),
        ((x : ℤ) + 1, (y : ℤ) - 1), ((x : ℤ) + 1, (y : ℤ)),
        ((x : ℤ) + 1, (y : ℤ) + 1), ((x : ℤ), (y : ℤ) + 1)] :
          List (ℤ × ℤ)).Nodup := by
      simp only [List.nodup_cons, List.nodup_nil, and_true]
      refine ⟨?_, ?_, ?_, ?_, ?_, ?_, ?_⟩ <;>
        simp only [List.mem_cons, List.not_mem_nil, or_false, Prod.mk.injEq,
          not_or, and_true, true_and, not_false_eq_true]
      all_goals omega
    rw [set_danger_field_as_fold, getD_modN, if_pos ⟨rfl, ht⟩,
      get_safely_add_list _ _ hU hnd (uw * field_weight) i j hi hj]
    rfl
  · intro t' hne
    rw [set_danger_field_as_fold, getD_modN, if_neg (fun hc => hne hc.1.symm)]

/-- C5 witness on a concrete 3-by-3 blank slice with two different
bearings. -/
theorem c5_set_danger_field_witness :
    get_danger_at ((set_danger_field 10 1 1 1 0 [blankMap 3 3]).getD 0 default) 0 0 =
      get_danger_at (([blankMap 3 3] : List map).getD 0 default) 0 0 +
        (if neighbor8 1 1 0 0 then 1 * field_weight else 0) :=
  (c5_set_danger_field_all_eight 10 20 1 1 1 0 [blankMap 3 3] 0 0
    (by decide) (by decide) (by decide) (by decide)).2.1

/-- C6: when a plane's current location already equals its destination,
`calculate_future_pos` returns an empty estimate stream (the avoidance
distance is zero, so the stream carries no danger contributions at all),
and the whole per-plane fill then reduces to the single occupancy write of
the plane's current cell into the `t = 0` slice (raw index `look_behind`);
both walk legs traverse the empty stream and write nothing. -/
theorem c6_degenerate_empty_stream (ang : ℤ → ℤ → ℤ → ℤ → ℚ) (fuel : ℕ)
    (pd : ℚ) (p : Plane) (ds : List map) (h : p.loc = p.dest) :
    calculate_future_pos ang fuel p 0 = some ([], 0) ∧
    fill_one_plane ang fuel pd p ds =
      some (modN ds (0 + look_behind)
        (fun m => add_danger_at m p.loc.1.toNat p.loc.2.toNat pd)) := by
  have hc := cfp_degenerate ang fuel p h
  refine ⟨hc, ?_⟩
  unfold fill_one_plane
  rw [hc]
  dsimp only
  rw [hc]
  rfl

/-- C6 witness for a plane sitting at its destination `(3, 3)`. -/
theorem c6_degenerate_witness :
    calculate_future_pos ratAngle 3 ⟨1, (3, 3), (3, 3), (5, 5), 0, 0⟩ 0
        = some ([], 0) ∧
    fill_one_plane ratAngle 3 1 ⟨1, (3, 3), (3, 3), (5, 5), 0, 0⟩
        (List.replicate (look_ahead + look_behind + 1) (blankMap 4 4)) =
      some (modN (List.replicate (look_ahead + look_behind + 1) (blankMap 4 4))
        (0 + look_behind)
        (fun m => add_danger_at m (3 : ℤ).toNat (3 : ℤ).toNat 1)) :=
  c6_degenerate_empty_stream ratAngle 3 1 ⟨1, (3, 3), (3, 3), (5, 5), 0, 0⟩
    (List.replicate (look_ahead + look_behind + 1) (blankMap 4 4)) rfl

/-- C7: starting from the all-zero grids built by the constructor, every
per-cell danger rating of the danger grid is nonnegative after
construction, for any angle oracle satisfying the bearing facts, any
aircraft set and any nonnegative `plane_danger`; consequently every value
`get_danger_at` can return is nonnegative. -/
theorem c7_get_danger_nonneg (ang : ℤ → ℤ → ℤ → ℤ → ℚ)
    (hang : ∀ x1 y1 x2 y2 : ℤ, ¬(x2 = x1 ∧ y2 = y1) →
      AngleSpec x1 y1 x2 y2 (ang x1 y1 x2 y2))
    (fuel : ℕ) (planes : List Plane) (w h res pd : ℚ) (pid : ℕ)
    (hpd : 0 ≤ pd) (ds' : List map)
    (hcon : danger_grid_construct ang fuel planes w h res pd pid = some ds')
    (x y : ℕ) (s : ℤ) :
    0 ≤ dg_get_danger_at ds' x y s := by
  have hds0 : NonnegDS (List.replicate (look_ahead + look_behind + 1)
      (map_ctor w h res)) := by
    intro i a b
    rw [getD_replicate]
    split_ifs
    · exact le_of_eq (get_blank ((⌊w / res⌋).toNat) ((⌊h / res⌋).toNat) a b).symm
    · exact le_refl 0
  have hfin := fill_danger_space_nonneg ang hang fuel pd hpd pid planes _ ds'
    hcon hds0
  exact hfin ((s + (look_behind : ℤ)).toNat) x y

/-- C7 witness: a single-aircraft set whose only plane is the owner, so the
construction succeeds by computation. -/
theorem c7_get_danger_nonneg_witness :
    0 ≤ dg_get_danger_at
      (List.replicate (look_ahead + look_behind + 1) (map_ctor 10 10 1)) 3 4 5 :=
  c7_get_danger_nonneg ratAngle ratAngle_spec 1
    [⟨7, (0, 0), (1, 1), (2, 2), 0, 0⟩] 10 10 1 1 7 (by norm_num) _ rfl 3 4 5

/-- C10: the two look-behind slices (`seconds = -2` and `seconds = -1`,
raw indices 0 and 1) are never written during construction — the occupancy
write goes to raw index `look_behind` (= `seconds = 0`) and every walk
write goes to `t + look_behind` with `t ≥ 1` — so a look-behind query
returns the blank-map value 0. -/
theorem c10_past_slices_zero (ang : ℤ → ℤ → ℤ → ℤ → ℚ) (fuel : ℕ)
    (planes : List Plane) (w h res pd : ℚ) (pid : ℕ) (ds' : List map)
    (hcon : danger_grid_construct ang fuel planes w h res pd pid = some ds')
    (x y : ℕ) (s : ℤ) (hs1 : -(look_behind : ℤ) ≤ s) (hs2 : s ≤ -1) :
    dg_get_danger_at ds' x y s = 0 := by
  have hlow := fill_danger_space_low ang fuel pd pid planes _ ds' hcon
  have hidx : (s + (look_behind : ℤ)).toNat < look_behind := by
    have hlb : (look_behind : ℤ) = 2 := rfl
    have hlb2 : look_behind = 2 := rfl
    omega
  unfold dg_get_danger_at
  rw [hlow _ hidx, getD_replicate]
  split_ifs
  · exact get_blank ((⌊w / res⌋).toNat) ((⌊h / res⌋).toNat) x y
  · rfl

/-- C10 witness: an owner-only aircraft set, queried at `seconds = -1`. -/
theorem c10_past_slices_zero_witness :
    dg_get_danger_at
      (List.replicate (look_ahead + look_behind + 1) (map_ctor 10 10 1)) 2 2 (-1)
      = 0 :=
  c10_past_slices_zero ratAngle 1 [⟨7, (0, 0), (1, 1), (2, 2), 0, 0⟩] 10 10 1 1 7 _
    rfl 2 2 (-1) (by decide) (by decide)

/-- C8 counterexample: for a 3-meter field at resolution 2 (a valid input:
`0 < res < width`), the `map` constructor's `double`-to-`unsigned`
conversion truncates `3 / 2` to 1 square, whereas the rounding-up helper
`map_tools::find_width_in_squares` yields `ceil(3/2) = 2`; the spec's
"rounded up" description therefore does not match the constructor the
danger grid actually uses. -/
theorem c8_map_ctor_truncates :
    (0 : ℚ) < 2 ∧ (2 : ℚ) < 3 ∧
    get_width_in_squares (map_ctor 3 3 2) = 1 ∧
    find_width_in_squares 3 3 2 = 2 ∧
    (1 : ℕ) ≠ 2 := by
  have hc : (⌈(3 : ℚ) / 2⌉ : ℤ) = 2 := by
    rw [Int.ceil_eq_iff]
    norm_num
  refine ⟨by norm_num, by norm_num, ?_, ?_, by decide⟩
  · rw [show map_ctor 3 3 2 = blankMap 1 1 by
      unfold map_ctor
      norm_num]
    rfl
  · unfold find_width_in_squares
    rw [hc, Int.floor_int_add]
    norm_num

/-- C8 (amended): under the constructor's own preconditions
(`0 < res < width, height`), the grid built by the `map` constructor has
`floor(width/res)` by `floor(height/res)` squares (truncation, at least 1
each), while the `map_tools` helpers `find_width_in_squares` /
`find_height_in_squares` compute the rounded-up counts
`ceil(width/res)` / `ceil(height/res)`. -/
theorem c8_dims_floor_and_tools_ceil (w h res : ℚ) (h0 : 0 < res)
    (hw : res < w) (hh : res < h) :
    get_width_in_squares (map_ctor w h res) = (⌊w / res⌋).toNat ∧
    get_height_in_squares (map_ctor w h res) = (⌊h / res⌋).toNat ∧
    1 ≤ get_width_in_squares (map_ctor w h res) ∧
    1 ≤ get_height_in_squares (map_ctor w h res) ∧
    find_width_in_squares w h res = ⌈w / res⌉ ∧
    find_height_in_squares w h res = ⌈h / res⌉ := by
  have hwfl : 1 ≤ ⌊w / res⌋ := by
    rw [Int.le_floor]
    push_cast
    rw [le_div_iff h0]
    linarith
  have hhfl : 1 ≤ ⌊h / res⌋ := by
    rw [Int.le_floor]
    push_cast
    rw [le_div_iff h0]
    linarith
  have hwid : get_width_in_squares (map_ctor w h res) = (⌊w / res⌋).toNat :=
    List.length_replicate _ _
  have hhei : get_height_in_squares (map_ctor w h res) = (⌊h / res⌋).toNat := by
    unfold get_height_in_squares map_ctor blankMap
    dsimp only
    rw [getD_replicate, if_pos (by omega)]
    exact List.length_replicate _ _
  have hshift : ∀ z : ℤ, (⌊((z : ℚ) + 1/10)⌋) = z := fun z => by
    rw [Int.floor_int_add]
    norm_num
  exact ⟨hwid, hhei, by omega, by omega, hshift _, hshift _⟩

/-- C8 witness at the concrete field `3 × 3` with resolution 2. -/
theorem c8_dims_witness :
    get_width_in_squares (map_ctor 3 3 2) = (⌊(3 : ℚ) / 2⌋).toNat ∧
    get_height_in_squares (map_ctor 3 3 2) = (⌊(3 : ℚ) / 2⌋).toNat ∧
    1 ≤ get_width_in_squares (map_ctor 3 3 2) ∧
    1 ≤ get_height_in_squares (map_ctor 3 3 2) ∧
    find_width_in_squares 3 3 2 = ⌈(3 : ℚ) / 2⌉ ∧
    find_height_in_squares 3 3 2 = ⌈(3 : ℚ) / 2⌉ :=
  c8_dims_floor_and_tools_ceil 3 3 2 (by norm_num) (by norm_num) (by norm_num)

theorem length_set (m : map) (x y : ℕ) (v : ℚ) :
    (set_danger_at m x y v).the_map.length = m.the_map.length :=
  length_modN _ _ _

theorem col_len_set (m : map) (x y : ℕ) (v : ℚ) (i : ℕ) :
    ((set_danger_at m x y v).the_map.getD i []).length =
      (m.the_map.getD i []).length := by
  unfold set_danger_at
  dsimp only
  rw [getD_modN]
  split_ifs
  · exact length_modN _ _ _
  · rfl

theorem foldl_dims {β : Type} (g : map → β → map)
    (hg1 : ∀ m k, (g m k).the_map.length = m.the_map.length)
    (hg2 : ∀ m k i, ((g m k).the_map.getD i []).length =
      (m.the_map.getD i []).length) :
    ∀ (l : List β) (m : map),
      (l.foldl g m).the_map.length = m.the_map.length ∧
      ∀ i, ((l.foldl g m).the_map.getD i []).length =
        (m.the_map.getD i []).length := by
  intro l
  induction l with
  | nil => intro m; exact ⟨rfl, fun i => rfl⟩
  | cons a t ih =>
    intro m
    rw [List.foldl_cons]
    refine ⟨?_, ?_⟩
    · rw [(ih (g m a)).1, hg1]
    · intro i
      rw [(ih (g m a)).2 i, hg2]

theorem build_col (distf : ℕ → ℕ → ℚ) (x : ℕ) :
    ∀ (n : ℕ) (m : map) (i j : ℕ),
      get_danger_at ((List.range n).foldl
        (fun m2 crnt_y => set_danger_at m2 x crnt_y (distf x crnt_y)) m) i j =
      if x = i ∧ j < n ∧ i < m.the_map.length ∧ j < (m.the_map.getD i []).length
      then distf x j else get_danger_at m i j := by
  intro n
  induction n with
  | zero =>
    intro m i j
    rw [List.range_zero, List.foldl_nil,
      if_neg (fun hc => absurd hc.2.1 (Nat.not_lt_zero j))]
  | succ n ih =>
    intro m i j
    rw [List.range_succ, List.foldl_append, List.foldl_cons, List.foldl_nil]
    have hd := foldl_dims
      (fun m2 crnt_y => set_danger_at m2 x crnt_y (distf x crnt_y))
      (fun m2 k => length_set m2 x k _)
      (fun m2 k i' => col_len_set m2 x k _ i') (List.range n) m
    rw [get_set_danger_at, ih m i j, hd.1, hd.2 i]
    by_cases hb : x = i ∧ i < m.the_map.length ∧ j < (m.the_map.getD i []).length
    · by_cases hjn : n = j
      · rw [if_pos ⟨hb.1, hjn, hb.2⟩, if_pos ⟨hb.1, (by omega : j < n + 1), hb.2⟩,
          hjn]
      · rw [if_neg (fun hc => hjn hc.2.1)]
        by_cases hjlt : j < n
        · rw [if_pos ⟨hb.1, hjlt, hb.2⟩, if_pos ⟨hb.1, by omega, hb.2⟩]
        · rw [if_neg (fun hc => hjlt hc.2.1),
            if_neg (fun hc => absurd hc.2.1 (by omega))]
    · rw [if_neg (fun hc => hb ⟨hc.1, hc.2.2⟩),
        if_neg (fun hc => hb ⟨hc.1, hc.2.2⟩),
        if_neg (fun hc => hb ⟨hc.1, hc.2.2⟩)]

theorem build_rows (distf : ℕ → ℕ → ℚ) (h : ℕ) :
    ∀ (n : ℕ) (m : map) (i j : ℕ),
      get_danger_at ((List.range n).foldl (fun m0 crnt_x =>
        (List.range h).foldl
          (fun m2 crnt_y => set_danger_at m2 crnt_x crnt_y (distf crnt_x crnt_y))
          m0) m) i j =
      if i < n ∧ j < h ∧ i < m.the_map.length ∧ j < (m.the_map.getD i []).length
      then distf i j else get_danger_at m i j := by
  intro n
  induction n with
  | zero =>
    intro m i j
    rw [List.range_zero, List.foldl_nil,
      if_neg (fun hc => absurd hc.1 (Nat.not_lt_zero i))]
  | succ n ih =>
    intro m i j
    rw [List.range_succ, List.foldl_append, List.foldl_cons, List.foldl_nil]
    have hd := foldl_dims
      (fun m0 crnt_x => (List.range h).foldl
        (fun m2 crnt_y => set_danger_at m2 crnt_x crnt_y (distf crnt_x crnt_y)) m0)
      (fun m0 k => (foldl_dims _ (fun m2 k2 => length_set m2 k k2 _)
        (fun m2 k2 i' => col_len_set m2 k k2 _ i') (List.range h) m0).1)
      (fun m0 k i' => (foldl_dims _ (fun m2 k2 => length_set m2 k k2 _)
        (fun m2 k2 i'' => col_len_set m2 k k2 _ i'') (List.range h) m0).2 i')
      (List.range n) m
    rw [build_col distf n h _ i j, ih m i j, hd.1, hd.2 i]
    by_cases hb : j < h ∧ i < m.the_map.length ∧ j < (m.the_map.getD i []).length
    · by_cases hin : n = i
      · rw [if_pos ⟨hin, hb⟩, if_pos ⟨(by omega : i < n + 1), hb⟩, hin]
      · rw [if_neg (fun hc => hin hc.1)]
        by_cases hilt : i < n
        · rw [if_pos ⟨hilt, hb⟩, if_pos ⟨by omega, hb⟩]
        · rw [if_neg (fun hc => hilt hc.1),
            if_neg (fun hc => absurd hc.1 (by omega))]
    · rw [if_neg (fun hc => hb hc.2), if_neg (fun hc => hb hc.2),
        if_neg (fun hc => hb hc.2)]

theorem dm_len (distf : ℕ → ℕ → ℚ) (w h : ℕ) :
    (build_dist_map distf w h).the_map.length = w := by
  unfold build_dist_map
  rw [(foldl_dims _
    (fun m0 k => (foldl_dims _ (fun m2 k2 => length_set m2 k k2 _)
      (fun m2 k2 i' => col_len_set m2 k k2 _ i') (List.range h) m0).1)
    (fun m0 k i' => (foldl_dims _ (fun m2 k2 => length_set m2 k k2 _)
      (fun m2 k2 i'' => col_len_set m2 k k2 _ i'') (List.range h) m0).2 i')
    (List.range w) (blankMap w h)).1]
  exact List.length_replicate _ _

theorem dm_col (distf : ℕ → ℕ → ℚ) (w h : ℕ) (i : ℕ) :
    ((build_dist_map distf w h).the_map.getD i []).length =
      if i < w then h else 0 := by
  unfold build_dist_map
  rw [(foldl_dims _
    (fun m0 k => (foldl_dims _ (fun m2 k2 => length_set m2 k k2 _)
      (fun m2 k2 i' => col_len_set m2 k k2 _ i') (List.range h) m0).1)
    (fun m0 k i' => (foldl_dims _ (fun m2 k2 => length_set m2 k k2 _)
      (fun m2 k2 i'' => col_len_set m2 k k2 _ i'') (List.range h) m0).2 i')
    (List.range w) (blankMap w h)).2 i]
  unfold blankMap
  dsimp only
  rw [getD_replicate]
  split_ifs
  · exact List.length_replicate _ _
  · rfl

theorem get_build_dist_map (distf : ℕ → ℕ → ℚ) (w h : ℕ) (i j : ℕ) :
    get_danger_at (build_dist_map distf w h) i j =
      if i < w ∧ j < h then distf i j else 0 := by
  unfold build_dist_map
  rw [build_rows distf h w (blankMap w h) i j]
  have hl : (blankMap w h).the_map.length = w := List.length_replicate _ _
  have hc : ∀ i', i' < w → ((blankMap w h).the_map.getD i' []).length = h := by
    intro i' hi'
    unfold blankMap
    dsimp only
    rw [getD_replicate, if_pos hi']
    exact List.length_replicate _ _
  by_cases hij : i < w ∧ j < h
  · rw [if_pos ⟨hij.1, hij.2, by rw [hl]; exact hij.1,
      by rw [hc i hij.1]; exact hij.2⟩, if_pos hij]
  · rw [if_neg (fun hcc => hij ⟨hcc.1, hcc.2.1⟩), if_neg hij, get_blank]

theorem blendt_len (ds0 : List map) (adj : ℚ) (dm : map) (cx cy : ℕ) :
    ∀ (n : ℕ) (dsc : List map),
      ((List.range n).foldl (fun dsc2 crnt_t =>
        if get_danger_at (ds0.getD crnt_t default) cx cy > EPSILON then
          modN dsc2 crnt_t (fun m => set_danger_at m cx cy
            (adj * get_danger_at (ds0.getD crnt_t default) cx cy
              + get_danger_at dm cx cy))
        else dsc2) dsc).length = dsc.length := by
  intro n
  induction n with
  | zero => intro dsc; rfl
  | succ n ih =>
    intro dsc
    rw [List.range_succ, List.foldl_append, List.foldl_cons, List.foldl_nil]
    split_ifs
    · rw [length_modN, ih]
    · rw [ih]

theorem blendt_dims (ds0 : List map) (adj : ℚ) (dm : map) (cx cy : ℕ) :
    ∀ (n : ℕ) (dsc : List map) (t'' : ℕ),
      ((((List.range n).foldl (fun dsc2 crnt_t =>
        if get_danger_at (ds0.getD crnt_t default) cx cy > EPSILON then
          modN dsc2 crnt_t (fun m => set_danger_at m cx cy
            (adj * get_danger_at (ds0.getD crnt_t default) cx cy
              + get_danger_at dm cx cy))
        else dsc2) dsc).getD t'' default).the_map.length =
          ((dsc.getD t'' default)).the_map.length) ∧
      ∀ i', ((((List.range n).foldl (fun dsc2 crnt_t =>
        if get_danger_at (ds0.getD crnt_t default) cx cy > EPSILON then
          modN dsc2 crnt_t (fun m => set_danger_at m cx cy
            (adj * get_danger_at (ds0.getD crnt_t default) cx cy
              + get_danger_at dm cx cy))
        else dsc2) dsc).getD t'' default).the_map.getD i' []).length =
          ((dsc.getD t'' default).the_map.getD i' []).length := by
  intro n
  induction n with
  | zero => intro dsc t''; exact ⟨rfl, fun i' => rfl⟩
  | succ n ih =>
    intro dsc t''
    rw [List.range_succ, List.foldl_append, List.foldl_cons, List.foldl_nil]
    split_ifs with hP
    · constructor
      · rw [getD_modN]
        split_ifs with hc
        · rw [length_set, (ih dsc t'').1]
        · exact (ih dsc t'').1
      · intro i'
        rw [getD_modN]
        split_ifs with hc
        · rw [col_len_set, (ih dsc t'').2 i']
        · exact (ih dsc t'').2 i'
    · exact ih dsc t''

theorem blend_t (ds0 : List map) (adj : ℚ) (dm : map) (cx cy : ℕ) :
    ∀ (n : ℕ) (dsc : List map) (t' i j : ℕ),
      get_danger_at (((List.range n).foldl (fun dsc2 crnt_t =>
        if get_danger_at (ds0.getD crnt_t default) cx cy > EPSILON then
          modN dsc2 crnt_t (fun m => set_danger_at m cx cy
            (adj * get_danger_at (ds0.getD crnt_t default) cx cy
              + get_danger_at dm cx cy))
        else dsc2) dsc).getD t' default) i j =
      if t' < n ∧ get_danger_at (ds0.getD t' default) cx cy > EPSILON ∧
          t' < dsc.length ∧ cx = i ∧ cy = j ∧
          i < (dsc.getD t' default).the_map.length ∧
          j < ((dsc.getD t' default).the_map.getD i []).length
      then adj * get_danger_at (ds0.getD t' default) cx cy + get_danger_at dm cx cy
      else get_danger_at (dsc.getD t' default) i j := by
  intro n
  induction n with
  | zero =>
    intro dsc t' i j
    rw [List.range_zero, List.foldl_nil,
      if_neg (fun hc => absurd hc.1 (Nat.not_lt_zero t'))]
  | succ n ih =>
    intro dsc t' i j
    rw [List.range_succ, List.foldl_append, List.foldl_cons, List.foldl_nil]
    have hlen := blendt_len ds0 adj dm cx cy n dsc
    have hdims := blendt_dims ds0 adj dm cx cy n dsc t'
    by_cases hPn : get_danger_at (ds0.getD n default) cx cy > EPSILON
    · rw [if_pos hPn, getD_modN]
      by_cases htn : n = t'
      · subst htn
        have hih : ∀ i' j', get_danger_at (((List.range n).foldl (fun dsc2 crnt_t =>
            if get_danger_at (ds0.getD crnt_t default) cx cy > EPSILON then
              modN dsc2 crnt_t (fun m => set_danger_at m cx cy
                (adj * get_danger_at (ds0.getD crnt_t default) cx cy
                  + get_danger_at dm cx cy))
            else dsc2) dsc).getD n default) i' j' =
            get_danger_at (dsc.getD n default) i' j' := by
          intro i' j'
          rw [ih dsc n i' j', if_neg (fun hc => absurd hc.1 (Nat.lt_irrefl n))]
        by_cases hlt : n < dsc.length
        · rw [if_pos ⟨rfl, by rw [hlen]; exact hlt⟩, get_set_danger_at,
            hih i j, hdims.1, hdims.2 i]
          by_cases hcell : cx = i ∧ cy = j ∧
              i < (dsc.getD n default).the_map.length ∧
              j < ((dsc.getD n default).the_map.getD i []).length
          · rw [if_pos hcell, if_pos ⟨Nat.lt_succ_self n, hPn, hlt, hcell⟩]
          · rw [if_neg hcell, if_neg (fun hc => hcell hc.2.2.2)]
        · rw [if_neg (fun hc => hlt (by rw [← hlen]; exact hc.2)),
            hih i j, if_neg (fun hc => hlt hc.2.2.1)]
      · rw [if_neg (fun hc => htn hc.1), ih dsc t' i j]
        by_cases hcond : t' < n ∧
            get_danger_at (ds0.getD t' default) cx cy > EPSILON ∧
            t' < dsc.length ∧ cx = i ∧ cy = j ∧
            i < (dsc.getD t' default).the_map.length ∧
            j < ((dsc.getD t' default).the_map.getD i []).length
        · rw [if_pos hcond, if_pos ⟨Nat.lt_succ_of_lt hcond.1, hcond.2⟩]
        · rw [if_neg hcond, if_neg (fun hc => hcond
            ⟨(Nat.lt_succ_iff_lt_or_eq.mp hc.1).resolve_right
              (fun he => htn he.symm), hc.2⟩)]
    · rw [if_neg hPn, ih dsc t' i j]
      by_cases htn : t' = n
      · subst htn
        rw [if_neg (fun hc => absurd hc.1 (Nat.lt_irrefl t')),
          if_neg (fun hc => hPn hc.2.1)]
      · by_cases hcond : t' < n ∧
            get_danger_at (ds0.getD t' default) cx cy > EPSILON ∧
            t' < dsc.length ∧ cx = i ∧ cy = j ∧
            i < (dsc.getD t' default).the_map.length ∧
            j < ((dsc.getD t' default).the_map.getD i []).length
        · rw [if_pos hcond, if_pos ⟨Nat.lt_succ_of_lt hcond.1, hcond.2⟩]
        · rw [if_neg hcond, if_neg (fun hc => hcond
            ⟨(Nat.lt_succ_iff_lt_or_eq.mp hc.1).resolve_right htn, hc.2⟩)]

theorem blendy_len (ds0 : List map) (adj : ℚ) (dm : map) (cx : ℕ) :
    ∀ (nh : ℕ) (dsc : List map),
      ((List.range nh).foldl (fun dsb crnt_y =>
        (List.range look_ahead).foldl (fun dsc2 crnt_t =>
          if get_danger_at (ds0.getD crnt_t default) cx crnt_y > EPSILON then
            modN dsc2 crnt_t (fun m => set_danger_at m cx crnt_y
              (adj * get_danger_at (ds0.getD crnt_t default) cx crnt_y
                + get_danger_at dm cx crnt_y))
          else dsc2) dsb) dsc).length = dsc.length := by
  intro nh
  induction nh with
  | zero => intro dsc; rfl
  | succ n ih =>
    intro dsc
    rw [List.range_succ, List.foldl_append, List.foldl_cons, List.foldl_nil,
      blendt_len, ih]

theorem blendy_dims (ds0 : List map) (adj : ℚ) (dm : map) (cx : ℕ) :
    ∀ (nh : ℕ) (dsc : List map) (t'' : ℕ),
      ((((List.range nh).foldl (fun dsb crnt_y =>
        (List.range look_ahead).foldl (fun dsc2 crnt_t =>
          if get_danger_at (ds0.getD crnt_t default) cx crnt_y > EPSILON then
            modN dsc2 crnt_t (fun m => set_danger_at m cx crnt_y
              (adj * get_danger_at (ds0.getD crnt_t default) cx crnt_y
                + get_danger_at dm cx crnt_y))
          else dsc2) dsb) dsc).getD t'' default).the_map.length =
          ((dsc.getD t'' default)).the_map.length) ∧
      ∀ i', ((((List.range nh).foldl (fun dsb crnt_y =>
        (List.range look_ahead).foldl (fun dsc2 crnt_t =>
          if get_danger_at (ds0.getD crnt_t default) cx crnt_y > EPSILON then
            modN dsc2 crnt_t (fun m => set_danger_at m cx crnt_y
              (adj * get_danger_at (ds0.getD crnt_t default) cx crnt_y
                + get_danger_at dm cx crnt_y))
          else dsc2) dsb) dsc).getD t'' default).the_map.getD i' []).length =
          ((dsc.getD t'' default).the_map.getD i' []).length := by
  intro nh
  induction nh with
  | zero => intro dsc t''; exact ⟨rfl, fun i' => rfl⟩
  | succ n ih =>
    intro dsc t''
    rw [List.range_succ, List.foldl_append, List.foldl_cons, List.foldl_nil]
    constructor
    · rw [(blendt_dims ds0 adj dm cx n look_ahead _ t'').1, (ih dsc t'').1]
    · intro i'
      rw [(blendt_dims ds0 adj dm cx n look_ahead _ t'').2 i', (ih dsc t'').2 i']

theorem blend_y (ds0 : List map) (adj : ℚ) (dm : map) (cx : ℕ) :
    ∀ (nh : ℕ) (dsc : List map) (t' i j : ℕ),
      get_danger_at (((List.range nh).foldl (fun dsb crnt_y =>
        (List.range look_ahead).foldl (fun dsc2 crnt_t =>
          if get_danger_at (ds0.getD crnt_t default) cx crnt_y > EPSILON then
            modN dsc2 crnt_t (fun m => set_danger_at m cx crnt_y
              (adj * get_danger_at (ds0.getD crnt_t default) cx crnt_y
                + get_danger_at dm cx crnt_y))
          else dsc2) dsb) dsc).getD t' default) i j =
      if j < nh ∧ t' < look_ahead ∧
          get_danger_at (ds0.getD t' default) cx j > EPSILON ∧
          t' < dsc.length ∧ cx = i ∧
          i < (dsc.getD t' default).the_map.length ∧
          j < ((dsc.getD t' default).the_map.getD i []).length
      then adj * get_danger_at (ds0.getD t' default) cx j + get_danger_at dm cx j
      else get_danger_at (dsc.getD t' default) i j := by
  intro nh
  induction nh with
  | zero =>
    intro dsc t' i j
    rw [List.range_zero, List.foldl_nil,
      if_neg (fun hc => absurd hc.1 (Nat.not_lt_zero j))]
  | succ n ih =>
    intro dsc t' i j
    rw [List.range_succ, List.foldl_append, List.foldl_cons, List.foldl_nil,
      blend_t ds0 adj dm cx n, blendy_len ds0 adj dm cx n dsc,
      (blendy_dims ds0 adj dm cx n dsc t').1, (blendy_dims ds0 adj dm cx n dsc t').2 i]
    by_cases hnj : n = j
    · have hihy : get_danger_at (((List.range n).foldl (fun dsb crnt_y =>
          (List.range look_ahead).foldl (fun dsc2 crnt_t =>
            if get_danger_at (ds0.getD crnt_t default) cx crnt_y > EPSILON then
              modN dsc2 crnt_t (fun m => set_danger_at m cx crnt_y
                (adj * get_danger_at (ds0.getD crnt_t default) cx crnt_y
                  + get_danger_at dm cx crnt_y))
            else dsc2) dsb) dsc).getD t' default) i j =
          get_danger_at (dsc.getD t' default) i j := by
        rw [ih dsc t' i j, if_neg (fun hc => absurd hc.1 (by omega))]
      rw [hihy]
      by_cases hcore : t' < look_ahead ∧
          get_danger_at (ds0.getD t' default) cx n > EPSILON ∧
          t' < dsc.length ∧ cx = i ∧
          i < (dsc.getD t' default).the_map.length ∧
          j < ((dsc.getD t' default).the_map.getD i []).length
      · rw [if_pos ⟨hcore.1, hcore.2.1, hcore.2.2.1, hcore.2.2.2.1, hnj,
            hcore.2.2.2.2⟩,
          if_pos ⟨(by omega : j < n + 1), hcore.1,
            (by rw [← hnj]; exact hcore.2.1), hcore.2.2.1, hcore.2.2.2.1,
            hcore.2.2.2.2⟩, hnj]
      · rw [if_neg (fun hc => hcore ⟨hc.1, hc.2.1, hc.2.2.1, hc.2.2.2.1,
            hc.2.2.2.2.2⟩),
          if_neg (fun hc => hcore ⟨hc.2.1, (by rw [hnj]; exact hc.2.2.1),
            hc.2.2.2.1, hc.2.2.2.2.1, hc.2.2.2.2.2⟩)]
    · rw [if_neg (fun hc => hnj hc.2.2.2.2.1), ih dsc t' i j]
      by_cases hcond : j < n ∧ t' < look_ahead ∧
          get_danger_at (ds0.getD t' default) cx j > EPSILON ∧
          t' < dsc.length ∧ cx = i ∧
          i < (dsc.getD t' default).the_map.length ∧
          j < ((dsc.getD t' default).the_map.getD i []).length
      · rw [if_pos hcond, if_pos ⟨Nat.lt_succ_of_lt hcond.1, hcond.2⟩]
      · rw [if_neg hcond, if_neg (fun hc => hcond
          ⟨(Nat.lt_succ_iff_lt_or_eq.mp hc.1).resolve_right
            (fun he => hnj he.symm), hc.2⟩)]

theorem blendx_len (ds0 : List map) (adj : ℚ) (dm : map) (hh : ℕ) :
    ∀ (nw : ℕ) (dsc : List map),
      ((List.range nw).foldl (fun dsa crnt_x =>
        (List.range hh).foldl (fun dsb crnt_y =>
          (List.range look_ahead).foldl (fun dsc2 crnt_t =>
            if get_danger_at (ds0.getD crnt_t default) crnt_x crnt_y > EPSILON then
              modN dsc2 crnt_t (fun m => set_danger_at m crnt_x crnt_y
                (adj * get_danger_at (ds0.getD crnt_t default) crnt_x crnt_y
                  + get_danger_at dm crnt_x crnt_y))
            else dsc2) dsb) dsa) dsc).length = dsc.length := by
  intro nw
  induction nw with
  | zero => intro dsc; rfl
  | succ n ih =>
    intro dsc
    rw [List.range_succ, List.foldl_append, List.foldl_cons, List.foldl_nil,
      blendy_len, ih]

theorem blendx_dims (ds0 : List map) (adj : ℚ) (dm : map) (hh : ℕ) :
    ∀ (nw : ℕ) (dsc : List map) (t'' : ℕ),
      ((((List.range nw).foldl (fun dsa crnt_x =>
        (List.range hh).foldl (fun dsb crnt_y =>
          (List.range look_ahead).foldl (fun dsc2 crnt_t =>
            if get_danger_at (ds0.getD crnt_t default) crnt_x crnt_y > EPSILON then
              modN dsc2 crnt_t (fun m => set_danger_at m crnt_x crnt_y
                (adj * get_danger_at (ds0.getD crnt_t default) crnt_x crnt_y
                  + get_danger_at dm crnt_x crnt_y))
            else dsc2) dsb) dsa) dsc).getD t'' default).the_map.length =
          ((dsc.getD t'' default)).the_map.length) ∧
      ∀ i', ((((List.range nw).foldl (fun dsa crnt_x =>
        (List.range hh).foldl (fun dsb crnt_y =>
          (List.range look_ahead).foldl (fun dsc2 crnt_t =>
            if get_danger_at (ds0.getD crnt_t default) crnt_x crnt_y > EPSILON then
              modN dsc2 crnt_t (fun m => set_danger_at m crnt_x crnt_y
                (adj * get_danger_at (ds0.getD crnt_t default) crnt_x crnt_y
                  + get_danger_at dm crnt_x crnt_y))
            else dsc2) dsb) dsa) dsc).getD t'' default).the_map.getD i' []).length =
          ((dsc.getD t'' default).the_map.getD i' []).length := by
  intro nw
  induction nw with
  | zero => intro dsc t''; exact ⟨rfl, fun i' => rfl⟩
  | succ n ih =>
    intro dsc t''
    rw [List.range_succ, List.foldl_append, List.foldl_cons, List.foldl_nil]
    constructor
    · rw [(blendy_dims ds0 adj dm n hh _ t'').1, (ih dsc t'').1]
    · intro i'
      rw [(blendy_dims ds0 adj dm n hh _ t'').2 i', (ih dsc t'').2 i']

theorem blend_x (ds0 : List map) (adj : ℚ) (dm : map) (hh : ℕ) :
    ∀ (nw : ℕ) (dsc : List map) (t' i j : ℕ),
      get_danger_at (((List.range nw).foldl (fun dsa crnt_x =>
        (List.range hh).foldl (fun dsb crnt_y =>
          (List.range look_ahead).foldl (fun dsc2 crnt_t =>
            if get_danger_at (ds0.getD crnt_t default) crnt_x crnt_y > EPSILON then
              modN dsc2 crnt_t (fun m => set_danger_at m crnt_x crnt_y
                (adj * get_danger_at (ds0.getD crnt_t default) crnt_x crnt_y
                  + get_danger_at dm crnt_x crnt_y))
            else dsc2) dsb) dsa) dsc).getD t' default) i j =
      if i < nw ∧ j < hh ∧ t' < look_ahead ∧
          get_danger_at (ds0.getD t' default) i j > EPSILON ∧
          t' < dsc.length ∧
          i < (dsc.getD t' default).the_map.length ∧
          j < ((dsc.getD t' default).the_map.getD i []).length
      then adj * get_danger_at (ds0.getD t' default) i j + get_danger_at dm i j
      else get_danger_at (dsc.getD t' default) i j := by
  intro nw
  induction nw with
  | zero =>
    intro dsc t' i j
    rw [List.range_zero, List.foldl_nil,
      if_neg (fun hc => absurd hc.1 (Nat.not_lt_zero i))]
  | succ n ih =>
    intro dsc t' i j
    rw [List.range_succ, List.foldl_append, List.foldl_cons, List.foldl_nil,
      blend_y ds0 adj dm n hh, blendx_len ds0 adj dm hh n dsc,
      (blendx_dims ds0 adj dm hh n dsc t').1, (blendx_dims ds0 adj dm hh n dsc t').2 i]
    by_cases hni : n = i
    · have hihx : get_danger_at (((List.range n).foldl (fun dsa crnt_x =>
          (List.range hh).foldl (fun dsb crnt_y =>
            (List.range look_ahead).foldl (fun dsc2 crnt_t =>
              if get_danger_at (ds0.getD crnt_t default) crnt_x crnt_y > EPSILON then
                modN dsc2 crnt_t (fun m => set_danger_at m crnt_x crnt_y
                  (adj * get_danger_at (ds0.getD crnt_t default) crnt_x crnt_y
                    + get_danger_at dm crnt_x crnt_y))
              else dsc2) dsb) dsa) dsc).getD t' default) i j =
          get_danger_at (dsc.getD t' default) i j := by
        rw [ih dsc t' i j, if_neg (fun hc => absurd hc.1 (by omega))]
      rw [hihx]
      by_cases hcore : j < hh ∧ t' < look_ahead ∧
          get_danger_at (ds0.getD t' default) n j > EPSILON ∧
          t' < dsc.length ∧
          i < (dsc.getD t' default).the_map.length ∧
          j < ((dsc.getD t' default).the_map.getD i []).length
      · rw [if_pos ⟨hcore.1, hcore.2.1, hcore.2.2.1, hcore.2.2.2.1, hni,
            hcore.2.2.2.2⟩,
          if_pos ⟨(by omega : i < n + 1), hcore.1, hcore.2.1,
            (by rw [← hni]; exact hcore.2.2.1), hcore.2.2.2.1,
            hcore.2.2.2.2⟩, hni]
      · rw [if_neg (fun hc => hcore ⟨hc.1, hc.2.1, hc.2.2.1, hc.2.2.2.1,
            hc.2.2.2.2.2⟩),
          if_neg (fun hc => hcore ⟨hc.2.1, hc.2.2.1,
            (by rw [hni]; exact hc.2.2.2.1), hc.2.2.2.2.1, hc.2.2.2.2.2⟩)]
    · rw [if_neg (fun hc => hni hc.2.2.2.2.1), ih dsc t' i j]
      by_cases hcond : i < n ∧ j < hh ∧ t' < look_ahead ∧
          get_danger_at (ds0.getD t' default) i j > EPSILON ∧
          t' < dsc.length ∧
          i < (dsc.getD t' default).the_map.length ∧
          j < ((dsc.getD t' default).the_map.getD i []).length
      · rw [if_pos hcond, if_pos ⟨Nat.lt_succ_of_lt hcond.1, hcond.2⟩]
      · rw [if_neg hcond, if_neg (fun hc => hcond
          ⟨(Nat.lt_succ_iff_lt_or_eq.mp hc.1).resolve_right
            (fun he => hni he.symm), hc.2⟩)]

theorem get_calculate_distance_costs (distf : ℕ → ℕ → ℚ) (danger_adjust : ℚ)
    (danger_space : List map) (t' i j : ℕ)
    (hw : i < get_width_in_squares (danger_space.getD 0 default))
    (hh : j < get_height_in_squares (danger_space.getD 0 default))
    (ht : t' < look_ahead + look_behind + 1) :
    get_danger_at
      ((calculate_distance_costs distf danger_adjust danger_space).getD t' default)
      i j =
    if t' < look_ahead ∧
        get_danger_at (danger_space.getD t' default) i j > EPSILON
    then danger_adjust * get_danger_at (danger_space.getD t' default) i j
      + distf i j
    else distf i j := by
  have hdm : get_danger_at (build_dist_map distf
      (get_width_in_squares (danger_space.getD 0 default))
      (get_height_in_squares (danger_space.getD 0 default))) i j = distf i j := by
    rw [get_build_dist_map, if_pos ⟨hw, hh⟩]
  simp only [calculate_distance_costs]
  rw [blend_x, List.length_replicate, getD_replicate, if_pos ht, dm_len,
    dm_col, if_pos hw, hdm]
  by_cases hc : t' < look_ahead ∧
      get_danger_at (danger_space.getD t' default) i j > EPSILON
  · rw [if_pos ⟨hw, hh, hc.1, hc.2, ht, hw, hh⟩, if_pos hc]
  · rw [if_neg (fun hx => hc ⟨hx.2.2.1, hx.2.2.2.1⟩), if_neg hc]

/-- C9 (amended): `calculate_distance_costs` replaces the danger space by
copies of the distance map and blends `danger_adjust * old_risk +
distance` into a cell only when the slice's RAW index is below
`look_ahead` (the loop runs `crnt_t < 20`) and the old slice held more
than `EPSILON` there; every other slice of the new space — in particular
the last `look_behind + 1` raw slices (indices 20..22), whatever
non-negligible risk they held — becomes the pure distance map. -/
theorem c9_blend_only_look_ahead_raw_slices (distf : ℕ → ℕ → ℚ)
    (danger_adjust : ℚ) (danger_space : List map) (t' i j : ℕ)
    (hw : i < get_width_in_squares (danger_space.getD 0 default))
    (hh : j < get_height_in_squares (danger_space.getD 0 default))
    (ht : t' < look_ahead + look_behind + 1) :
    get_danger_at
      ((calculate_distance_costs distf danger_adjust danger_space).getD t' default)
      i j =
    if t' < look_ahead ∧
        get_danger_at (danger_space.getD t' default) i j > EPSILON
    then danger_adjust * get_danger_at (danger_space.getD t' default) i j
      + distf i j
    else distf i j :=
  get_calculate_distance_costs distf danger_adjust danger_space t' i j hw hh ht

/-- C9 witness on a blank 1-by-1 danger space at raw slice 21. -/
theorem c9_blend_witness :
    get_danger_at
      ((calculate_distance_costs (fun _ _ => (0 : ℚ)) 2
        (List.replicate 23 (blankMap 1 1))).getD 21 default) 0 0 =
    if 21 < look_ahead ∧
        get_danger_at ((List.replicate 23 (blankMap 1 1)).getD 21 default) 0 0
          > EPSILON
    then 2 * get_danger_at
        ((List.replicate 23 (blankMap 1 1)).getD 21 default) 0 0 + 0
    else 0 :=
  c9_blend_only_look_ahead_raw_slices (fun _ _ => (0 : ℚ)) 2
    (List.replicate 23 (blankMap 1 1)) 21 0 0 (by decide) (by decide) (by decide)

/-- C9 counterexample: a 1-by-1 danger space whose every slice (including
raw slice 20, i.e. `seconds = +18` relative indexing) carries risk 1,
which exceeds `EPSILON`; after `calculate_distance_costs` (with
`danger_adjust = 1` and all distances 0) raw slice 20 holds 0, not
`1 * 1 + 0 = 1`: its non-negligible risk was dropped, refuting the claim
that every slice of the replaced space blends the old risk in. -/
theorem c9_blend_misses_last_slices :
    get_danger_at
      ((calculate_distance_costs (fun _ _ => (0 : ℚ)) 1
        (List.replicate 23 (set_danger_at (blankMap 1 1) 0 0 1))).getD 20 default)
      0 0 = 0 ∧
    get_danger_at
      ((List.replicate 23 (set_danger_at (blankMap 1 1) 0 0 1)).getD 20 default)
      0 0 = 1 ∧
    (1 : ℚ) > EPSILON ∧ ¬(20 < look_ahead) := by
  refine ⟨?_, ?_, ?_, by decide⟩
  · rw [get_calculate_distance_costs (fun _ _ => (0 : ℚ)) 1
      (List.replicate 23 (set_danger_at (blankMap 1 1) 0 0 1)) 20 0 0
      (by decide) (by decide) (by decide),
      if_neg (fun hc => absurd hc.1 (by decide))]
  · rw [getD_replicate, if_pos (by decide : (20 : ℕ) < 23),
      get_set_danger_at, if_pos ⟨rfl, rfl, by decide, by decide⟩]
  · rw [show EPSILON = 1/1000000 from rfl]
    norm_num
